import Mathlib

/-!
Verification of the `subcon` subscription converter against its
natural-language specification.

The Rust sources are shallowly embedded: Rust `String` becomes `List Char`
(`Str`), `serde_json::Value` becomes `JValue` (float numbers are modelled
exactly, by rationals), maps become association lists whose `insert`
replaces in place, and fallible functions return `Except String`.
-/

set_option maxRecDepth 10000

namespace Subcon

/-- Rust `String`, modelled as its character list. -/
abbrev Str := List Char

/-- Rust `str::to_ascii_lowercase`. -/
def lowerAscii (s : Str) : Str :=
  s.map Char.toLower

/-- Rust `str::eq_ignore_ascii_case`. -/
def eqIgnoreAsciiCase (a b : Str) : Bool :=
  lowerAscii a == lowerAscii b

/-- Rust `str::trim_start` (whitespace model: `Char.isWhitespace`). -/
def trimLeft (s : Str) : Str :=
  s.dropWhile (fun c => c.isWhitespace)

/-- Rust `str::trim_end`. -/
def trimRight (s : Str) : Str :=
  (s.reverse.dropWhile (fun c => c.isWhitespace)).reverse

/-- Rust `str::trim`. -/
def trim (s : Str) : Str :=
  trimRight (trimLeft s)

/-- `serde_json::Value`.  Numbers carry an integer/float tag the way
`serde_json::Number` does; float payloads are modelled exactly as
rationals. -/
inductive JValue where
  | null
  | bool (b : Bool)
  | int (n : Int)
  | float (q : ℚ)
  | str (s : Str)
  | arr (xs : List JValue)
  | obj (kvs : List (Str × JValue))

mutual

/-- Decidable equality for `JValue` (the deriving handler does not support
nested inductives). -/
def JValue.decEq : (a b : JValue) → Decidable (a = b)
  | .null, .null => isTrue rfl
  | .null, .bool _ => isFalse nofun
  | .null, .int _ => isFalse nofun
  | .null, .float _ => isFalse nofun
  | .null, .str _ => isFalse nofun
  | .null, .arr _ => isFalse nofun
  | .null, .obj _ => isFalse nofun
  | .bool _, .null => isFalse nofun
  | .bool a, .bool b =>
      if h : a = b then isTrue (by rw [h]) else isFalse (by simp [h])
  | .bool _, .int _ => isFalse nofun
  | .bool _, .float _ => isFalse nofun
  | .bool _, .str _ => isFalse nofun
  | .bool _, .arr _ => isFalse nofun
  | .bool _, .obj _ => isFalse nofun
  | .int _, .null => isFalse nofun
  | .int _, .bool _ => isFalse nofun
  | .int a, .int b =>
      if h : a = b then isTrue (by rw [h]) else isFalse (by simp [h])
  | .int _, .float _ => isFalse nofun
  | .int _, .str _ => isFalse nofun
  | .int _, .arr _ => isFalse nofun
  | .int _, .obj _ => isFalse nofun
  | .float _, .null => isFalse nofun
  | .float _, .bool _ => isFalse nofun
  | .float _, .int _ => isFalse nofun
  | .float a, .float b =>
      if h : a = b then isTrue (by rw [h]) else isFalse (by simp [h])
  | .float _, .str _ => isFalse nofun
  | .float _, .arr _ => isFalse nofun
  | .float _, .obj _ => isFalse nofun
  | .str _, .null => isFalse nofun
  | .str _, .bool _ => isFalse nofun
  | .str _, .int _ => isFalse nofun
  | .str _, .float _ => isFalse nofun
  | .str a, .str b =>
      if h : a = b then isTrue (by rw [h]) else isFalse (by simp [h])
  | .str _, .arr _ => isFalse nofun
  | .str _, .obj _ => isFalse nofun
  | .arr _, .null => isFalse nofun
  | .arr _, .bool _ => isFalse nofun
  | .arr _, .int _ => isFalse nofun
  | .arr _, .float _ => isFalse nofun
  | .arr _, .str _ => isFalse nofun
  | .arr a, .arr b =>
      match JValue.decEqList a b with
      | isTrue h => isTrue (by rw [h])
      | isFalse h => isFalse (by simp [h])
  | .arr _, .obj _ => isFalse nofun
  | .obj _, .null => isFalse nofun
  | .obj _, .bool _ => isFalse nofun
  | .obj _, .int _ => isFalse nofun
  | .obj _, .float _ => isFalse nofun
  | .obj _, .str _ => isFalse nofun
  | .obj _, .arr _ => isFalse nofun
  | .obj a, .obj b =>
      match JValue.decEqObj a b with
      | isTrue h => isTrue (by rw [h])
      | isFalse h => isFalse (by simp [h])

def JValue.decEqList : (a b : List JValue) → Decidable (a = b)
  | [], [] => isTrue rfl
  | [], _ :: _ => isFalse nofun
  | _ :: _, [] => isFalse nofun
  | x :: xs, y :: ys =>
      match JValue.decEq x y, JValue.decEqList xs ys with
      | isTrue h1, isTrue h2 => isTrue (by rw [h1, h2])
      | isFalse h1, _ => isFalse (by intro h; injection h; contradiction)
      | _, isFalse h2 => isFalse (by intro h; injection h; contradiction)

def JValue.decEqObj : (a b : List (Str × JValue)) → Decidable (a = b)
  | [], [] => isTrue rfl
  | [], _ :: _ => isFalse nofun
  | _ :: _, [] => isFalse nofun
  | (k, x) :: xs, (l, y) :: ys =>
      if hk : k = l then
        match JValue.decEq x y, JValue.decEqObj xs ys with
        | isTrue h1, isTrue h2 => isTrue (by rw [hk, h1, h2])
        | isFalse h1, _ =>
            isFalse (by
              intro h
              injection h with h1' h2'
              exact h1 (congrArg Prod.snd h1'))
        | _, isFalse h2 => isFalse (by intro h; injection h; contradiction)
      else
        isFalse (by
          intro h
          injection h with h1' h2'
          exact hk (congrArg Prod.fst h1'))

end

instance : DecidableEq JValue := JValue.decEq

instance : Inhabited JValue := ⟨JValue.null⟩

/-- `serde_json::Map<String, Value>` (and `BTreeMap` where only lookup /
replacing insert / removal matter): an association list. -/
abbrev JsonMap := List (Str × JValue)

/-- Map lookup (`map.get(k)`). -/
def mget (m : JsonMap) (k : Str) : Option JValue :=
  match m with
  | [] => none
  | (k', v) :: rest => if k' = k then some v else mget rest k

/-- Map insert (`map.insert(k, v)`): replace in place, else append. -/
def minsert (m : JsonMap) (k : Str) (v : JValue) : JsonMap :=
  match m with
  | [] => [(k, v)]
  | (k', v') :: rest =>
      if k' = k then (k, v) :: rest else (k', v') :: minsert rest k v

/-- Map removal (`map.remove(k)`), dropping the binding. -/
def mremove (m : JsonMap) (k : Str) : JsonMap :=
  match m with
  | [] => []
  | (k', v') :: rest =>
      if k' = k then rest else (k', v') :: mremove rest k

/-- `map.contains_key(k)`. -/
def mcontains (m : JsonMap) (k : Str) : Bool :=
  (mget m k).isSome

/- ## Schema templates (src/schema/mod.rs) -/

/-- `FieldRef` from `src/schema/mod.rs`. -/
structure FieldRef where
  «from» : Str
  optional : Bool
  default : Option JValue
  deriving DecidableEq

/-- `ValueTemplate` from `src/schema/mod.rs`. -/
inductive ValueTemplate where
  | field (f : FieldRef)
  | object (entries : List (Str × ValueTemplate))
  | sequence (items : List ValueTemplate)
  | literal (value : JValue)

mutual

/-- `render_template` from `src/schema/mod.rs` (lines 255–289). -/
def render_template (template : ValueTemplate) (ctx : JsonMap) :
    Except String (Option JValue) :=
  match template with
  | .literal value => .ok (some value)
  | .field field =>
      match mget ctx field.«from» with
      | some val =>
          match field.default with
          | some default =>
              if val = default then .ok none else .ok (some val)
          | none => .ok (some val)
      | none =>
          if field.default.isSome then
            .ok none
          else if field.optional then
            .ok none
          else
            .error "missing required field"
  | .object map =>
      match render_object_entries map ctx with
      | .ok out => .ok (some (.obj out))
      | .error e => .error e
  | .sequence items =>
      match render_sequence_items items ctx with
      | .ok rendered =>
          if rendered.isEmpty then .ok none else .ok (some (.arr rendered))
      | .error e => .error e

/-- Body of `render_object`: render each template entry in order, dropping
`None` results. -/
def render_object_entries (entries : List (Str × ValueTemplate))
    (ctx : JsonMap) : Except String (List (Str × JValue)) :=
  match entries with
  | [] => .ok []
  | (key, tmpl) :: rest =>
      match render_template tmpl ctx with
      | .error e => .error e
      | .ok r =>
          match render_object_entries rest ctx with
          | .error e => .error e
          | .ok tail =>
              match r with
              | some v => .ok ((key, v) :: tail)
              | none => .ok tail

/-- Body of `render_sequence`: render the items in order, dropping `None`
results. -/
def render_sequence_items (items : List ValueTemplate) (ctx : JsonMap) :
    Except String (List JValue) :=
  match items with
  | [] => .ok []
  | item :: rest =>
      match render_template item ctx with
      | .error e => .error e
      | .ok r =>
          match render_sequence_items rest ctx with
          | .error e => .error e
          | .ok tail =>
              match r with
              | some v => .ok (v :: tail)
              | none => .ok tail

end

/-- `render_object` from `src/schema/mod.rs`: always wraps the rendered
entries in an object (an empty object is still emitted). -/
def render_object (template : List (Str × ValueTemplate)) (ctx : JsonMap) :
    Except String (Option JValue) :=
  match render_object_entries template ctx with
  | .ok out => .ok (some (.obj out))
  | .error e => .error e

/- ## Rules (src/rules/mod.rs) -/

/-- `RuleFlags` from `src/rules/mod.rs`. -/
structure RuleFlags where
  no_resolve : Bool
  deriving DecidableEq

/-- `Rule` from `src/rules/mod.rs`; `RuleType` is a newtype over `String`,
kept here as the bare string. -/
structure Rule where
  rule_type : Str
  content : Option Str
  group : Str
  flags : RuleFlags
  deriving DecidableEq

/-- `Rule::render` from `src/rules/mod.rs` (lines 68–82):
`type[,content],group[,no-resolve]` joined with commas. -/
def Rule.render (r : Rule) : Str :=
  let parts : List Str :=
    [r.rule_type]
      ++ (match r.content with | some c => [c] | none => [])
      ++ [r.group]
      ++ (if r.flags.no_resolve then ["no-resolve".data] else [])
  List.intercalate ",".data parts

/-- `str::strip_prefix`. -/
def dropPrefix? : (pre s : Str) → Option Str
  | [], s => some s
  | _ :: _, [] => none
  | c :: cs, d :: ds => if d = c then dropPrefix? cs ds else none

/-- The per-line surge rewrite inside `render_surge`
(src/server/surge.rs lines 106–117). -/
def surge_rewrite_rule_line (line : Str) : Str :=
  if line = "SRC-IP-CIDR".data then
    "IP-CIDR".data
  else
    match dropPrefix? "SRC-IP-CIDR,".data line with
    | some rest => "IP-CIDR,".data ++ rest ++ ",no-resolve".data
    | none => line

/-- `IP_RULE_TYPES` from `src/rules/mod.rs`. -/
def IP_RULE_TYPES : List Str :=
  ["IP-CIDR", "IP-CIDR6", "IP-SUFFIX", "IP-ASN", "GEOIP", "SRC-GEOIP",
    "SRC-IP-ASN", "SRC-IP-CIDR", "SRC-IP-SUFFIX"].map String.data

/-- `DOMAIN_RULE_TYPES` from `src/rules/mod.rs`. -/
def DOMAIN_RULE_TYPES : List Str :=
  ["DOMAIN", "DOMAIN-SUFFIX", "DOMAIN-KEYWORD", "DOMAIN-WILDCARD",
    "DOMAIN-REGEX", "GEOSITE"].map String.data

/-- `is_ip_rule` from `src/rules/mod.rs`. -/
def is_ip_rule (r : Rule) : Bool :=
  IP_RULE_TYPES.any (fun ty => eqIgnoreAsciiCase ty r.rule_type)

/-- `is_domain_rule` from `src/rules/mod.rs`. -/
def is_domain_rule (r : Rule) : Bool :=
  DOMAIN_RULE_TYPES.any (fun ty => eqIgnoreAsciiCase ty r.rule_type)

/-- The walk inside `reorder_rules_domain_before_ip`: at each slot that held
an ip- or domain-rule emit the next pending domain rule, then the next
pending ip rule; other slots keep their rule. -/
def reorderGo : List Rule → List Rule → List Rule → List Rule
  | [], _, _ => []
  | r :: rs, doms, ips =>
      if is_ip_rule r || is_domain_rule r then
        match doms with
        | d :: doms' => d :: reorderGo rs doms' ips
        | [] =>
            match ips with
            | i :: ips' => i :: reorderGo rs doms ips'
            | [] => r :: reorderGo rs doms ips
      else
        r :: reorderGo rs doms ips

/-- `reorder_rules_domain_before_ip` from `src/rules/mod.rs`
(lines 234–269). -/
def reorder_rules_domain_before_ip (rules : List Rule) : List Rule :=
  let ip_rules := rules.filter is_ip_rule
  let domain_rules := rules.filter is_domain_rule
  if ip_rules.isEmpty || domain_rules.isEmpty then
    rules
  else
    reorderGo rules domain_rules ip_rules

/- ## Schema registry: fields, targets and resolution
     (src/schema/mod.rs) -/

/-- Association-list lookup, the generic analogue of `mget` for the
schema maps (`BTreeMap` where only lookup/replacing-insert matter). -/
def alookup {α : Type} : List (Str × α) → Str → Option α
  | [], _ => none
  | (k', v) :: rest, k => if k' = k then some v else alookup rest k

/-- Association-list insert-or-replace, the generic analogue of
`minsert`. -/
def alinsert {α : Type} : List (Str × α) → Str → α → List (Str × α)
  | [], k, v => [(k, v)]
  | (k', v') :: rest, k, v =>
      if k' = k then (k, v) :: rest else (k', v') :: alinsert rest k v

/-- `FieldType` from `src/schema/mod.rs`. -/
inductive FieldType where
  | string
  | integer
  | boolean
  | list
  | map
  deriving DecidableEq

/-- `FieldType::matches` from `src/schema/mod.rs` (lines 186–196):
`integer` accepts exactly the integer-represented numbers
(`as_i64`/`as_u64`). -/
def FieldType.matches : FieldType → JValue → Bool
  | .string, .str _ => true
  | .integer, .int _ => true
  | .boolean, .bool _ => true
  | .list, .arr _ => true
  | .map, .obj _ => true
  | _, _ => false

/-- `FieldSpec` from `src/schema/mod.rs`. -/
structure FieldSpec where
  ty : FieldType
  deriving DecidableEq

/-- `FieldSpec::validate` / `validate_value`. -/
def FieldSpec.validate_value (spec : FieldSpec) (value : JValue) :
    Except String Unit :=
  if spec.ty.matches value then .ok () else .error "field type mismatch"

/-- `TargetSchema` from `src/schema/mod.rs`. -/
structure TargetSchema where
  template : List (Str × ValueTemplate)
  ordered_keys : Option (List Str)
  not_implemented : Option Bool

/-- `ProtocolSchema` from `src/schema/mod.rs`. -/
structure ProtocolSchema where
  protocol : Str
  includes : List Str
  fields : List (Str × FieldSpec)
  targets : List (Str × TargetSchema)

/-- `TargetSchema::absorb` from `src/schema/mod.rs` (lines 199–222). -/
def TargetSchema.absorb (self other : TargetSchema)
    (override_existing : Bool) : TargetSchema :=
  let s1 :=
    if override_existing then
      { self with
        ordered_keys :=
          if other.ordered_keys.isSome then other.ordered_keys
          else self.ordered_keys,
        not_implemented :=
          if other.not_implemented.isSome then other.not_implemented
          else self.not_implemented }
    else
      { self with
        ordered_keys :=
          if self.ordered_keys.isNone then other.ordered_keys
          else self.ordered_keys,
        not_implemented :=
          if self.not_implemented.isNone then other.not_implemented
          else self.not_implemented }
  { s1 with
    template := other.template.foldl
      (fun t kv =>
        if override_existing || ¬ (alookup t kv.1).isSome then
          alinsert t kv.1 kv.2
        else t)
      s1.template }

/-- `ProtocolSchema::absorb` from `src/schema/mod.rs` (lines 86–101). -/
def ProtocolSchema.absorb (self other : ProtocolSchema)
    (override_existing : Bool) : ProtocolSchema :=
  let fields := other.fields.foldl
    (fun fs kv =>
      if override_existing || ¬ (alookup fs kv.1).isSome then
        alinsert fs kv.1 kv.2
      else fs)
    self.fields
  let targets := other.targets.foldl
    (fun ts kv =>
      match alookup ts kv.1 with
      | some existing =>
          alinsert ts kv.1 (existing.absorb kv.2 override_existing)
      | none => alinsert ts kv.1 kv.2)
    self.targets
  { self with fields := fields, targets := targets }

mutual

/-- `validate_template` from `src/schema/mod.rs` (lines 302–326). -/
def validate_template (template : ValueTemplate)
    (fields : List (Str × FieldSpec)) : Except String Unit :=
  match template with
  | .field field =>
      match alookup fields field.«from» with
      | none => .error "references unknown field"
      | some spec =>
          match field.default with
          | some default => spec.validate_value default
          | none => .ok ()
  | .object map => validate_template_map map fields
  | .sequence items => validate_template_items items fields
  | .literal _ => .ok ()

/-- `validate_template_map` from `src/schema/mod.rs` (lines 291–300). -/
def validate_template_map (map : List (Str × ValueTemplate))
    (fields : List (Str × FieldSpec)) : Except String Unit :=
  match map with
  | [] => .ok ()
  | (_, tmpl) :: rest =>
      match validate_template tmpl fields with
      | .error e => .error e
      | .ok _ => validate_template_map rest fields

/-- The loop of `validate_template` over a `Sequence`'s items. -/
def validate_template_items (items : List ValueTemplate)
    (fields : List (Str × FieldSpec)) : Except String Unit :=
  match items with
  | [] => .ok ()
  | item :: rest =>
      match validate_template item fields with
      | .error e => .error e
      | .ok _ => validate_template_items rest fields

end

/-- `ProtocolSchema::validate_templates` from `src/schema/mod.rs`
(lines 155–164), as a loop over the target list. -/
def validate_targets (targets : List (Str × TargetSchema))
    (fields : List (Str × FieldSpec)) : Except String Unit :=
  match targets with
  | [] => .ok ()
  | (_, target) :: rest =>
      match validate_template_map target.template fields with
      | .error e => .error e
      | .ok _ => validate_targets rest fields

/-- `ProtocolSchema::validate_templates`. -/
def ProtocolSchema.validate_templates (s : ProtocolSchema) :
    Except String Unit :=
  validate_targets s.targets s.fields

mutual

/-- `resolve_protocol` from `src/schema/mod.rs` (lines 563–599).  The
mutable `resolving` set and `cache` map are threaded through; `fuel`
bounds the recursion depth (the caller passes `raw.length + 1`, enough
for the deepest possible chain of distinct `resolving` insertions, so
fuel exhaustion is unreachable on the paths the Rust code terminates
on). -/
def resolve_protocol : Nat → Str → List (Str × ProtocolSchema) →
    List Str → List (Str × ProtocolSchema) →
    Except String (ProtocolSchema × List Str × List (Str × ProtocolSchema))
  | 0, _, _, _, _ => .error "fuel exhausted"
  | fuel + 1, name, raw, resolving, cache =>
      match alookup cache name with
      | some resolved => .ok (resolved, resolving, cache)
      | none =>
          if name ∈ resolving then
            .error "circular include detected"
          else
            match alookup raw name with
            | none => .error "protocol referenced but not found"
            | some schema =>
                match resolve_includes fuel schema.includes raw
                    (resolving ++ [name]) cache
                    ⟨schema.protocol, [], [], []⟩ with
                | .error e => .error e
                | .ok (combined1, resolving2, cache2) =>
                    let combined2 := combined1.absorb schema true
                    let combined3 := { combined2 with includes := [] }
                    match combined3.validate_templates with
                    | .error e => .error e
                    | .ok _ =>
                        .ok (combined3,
                          resolving2.filter (fun x => decide (x ≠ name)),
                          alinsert cache2 name combined3)

/-- The `for include in &schema.includes` loop of `resolve_protocol`. -/
def resolve_includes : Nat → List Str → List (Str × ProtocolSchema) →
    List Str → List (Str × ProtocolSchema) → ProtocolSchema →
    Except String (ProtocolSchema × List Str × List (Str × ProtocolSchema))
  | _, [], _, resolving, cache, acc => .ok (acc, resolving, cache)
  | fuel, inc :: rest, raw, resolving, cache, acc =>
      match resolve_protocol fuel inc raw resolving cache with
      | .error e => .error e
      | .ok (parent, resolving', cache') =>
          resolve_includes fuel rest raw resolving' cache'
            (acc.absorb parent false)

end

/-- The `for name in names` loop of `resolve_protocols`. -/
def resolveAll (fuel : Nat) (raw : List (Str × ProtocolSchema)) :
    List Str → List Str → List (Str × ProtocolSchema) →
    Except String (List (Str × ProtocolSchema))
  | [], _, cache => .ok cache
  | n :: ns, resolving, cache =>
      match resolve_protocol fuel n raw resolving cache with
      | .error e => .error e
      | .ok (_, resolving', cache') => resolveAll fuel raw ns resolving' cache'

/-- `resolve_protocols` from `src/schema/mod.rs` (lines 549–561). -/
def resolve_protocols (raw : List (Str × ProtocolSchema)) :
    Except String (List (Str × ProtocolSchema)) :=
  resolveAll (raw.length + 1) raw (raw.map Prod.fst) [] []

/-- The `includes` edge relation of the raw schema set. -/
def Includes (raw : List (Str × ProtocolSchema)) (a b : Str) : Prop :=
  ∃ s, alookup raw a = some s ∧ b ∈ s.includes

/-- A fully resolved schema: empty `includes` and validated templates. -/
def GoodSchema (s : ProtocolSchema) : Prop :=
  s.includes = [] ∧ s.validate_templates = .ok ()

/-- No include-cycle is reachable from `n`. -/
def Safe (raw : List (Str × ProtocolSchema)) (n : Str) : Prop :=
  ∀ x, Relation.ReflTransGen (Includes raw) n x →
    ¬ Relation.TransGen (Includes raw) x x

/-- Invariant of the resolution cache: every entry is fully resolved and
reaches no cycle. -/
def CacheInv (raw : List (Str × ProtocolSchema))
    (cache : List (Str × ProtocolSchema)) : Prop :=
  ∀ e ∈ cache, GoodSchema e.2 ∧ Safe raw e.1

/-- Induction statement for `resolve_protocol` at a given fuel. -/
def PResolve (f : Nat) : Prop :=
  ∀ (name : Str) (raw : List (Str × ProtocolSchema)) (resolving : List Str)
    (cache : List (Str × ProtocolSchema)) out,
    resolve_protocol f name raw resolving cache = .ok out →
    CacheInv raw cache →
    GoodSchema out.1 ∧ Safe raw name ∧ CacheInv raw out.2.2

/-- Induction statement for `resolve_includes` at a given fuel. -/
def QResolve (f : Nat) : Prop :=
  ∀ (incs : List Str) (raw : List (Str × ProtocolSchema))
    (resolving : List Str) (cache : List (Str × ProtocolSchema))
    (acc : ProtocolSchema) out,
    resolve_includes f incs raw resolving cache acc = .ok out →
    CacheInv raw cache →
    (∀ i ∈ incs, Safe raw i) ∧ CacheInv raw out.2.2

/- ## Group resolver (src/groups/mod.rs) -/

/-- `Proxy` from `src/proxy/mod.rs`. -/
structure Proxy where
  name : Str
  protocol : Str
  values : JsonMap

/-- `GroupSpec` from `src/groups/mod.rs`. -/
structure GroupSpec where
  name : Str
  group_type : Str
  rule : List Str
  url : Option Str
  interval : Option Nat

/-- `ProxyGroup` from `src/groups/mod.rs`. -/
structure ProxyGroup where
  name : Str
  group_type : Str
  proxies : List Str
  url : Option Str
  interval : Option Nat

/-- The `fancy_regex` engine, abstracted: `compile` models `Regex::new`,
and a compiled regex models `Regex::is_match` (which can itself fail at
match time).  All group-resolver theorems hold for every engine. -/
structure RegexEngine where
  compile : Str → Except String (Str → Except String Bool)

/-- `push_unique` from `src/groups/mod.rs`: `seen` is the `HashSet`
membership record, kept as the insertion-ordered list. -/
def push_unique (out seen : List Str) (value : Str) : List Str × List Str :=
  if value ∈ seen then (out, seen) else (out ++ [value], seen ++ [value])

/-- `push_all_unique` from `src/groups/mod.rs`. -/
def push_all_unique (out seen : List Str) (values : List Str) :
    List Str × List Str :=
  values.foldl (fun (acc : List Str × List Str) v =>
    push_unique acc.1 acc.2 v) (out, seen)

/-- The inner loop of `build_group` collecting regex matches over the
proxy names in their original order (`Regex::is_match` errors abort). -/
def collectMatches (isMatch : Str → Except String Bool)
    (proxy_names : List Str) : Except String (List Str) :=
  match proxy_names with
  | [] => .ok []
  | name :: rest =>
      match isMatch name with
      | .error e => .error e
      | .ok true =>
          match collectMatches isMatch rest with
          | .error e => .error e
          | .ok tail => .ok (name :: tail)
      | .ok false => collectMatches isMatch rest

/-- The rule-string loop of `build_group`. -/
def buildGroupLoop (eng : RegexEngine) (allowed_groups proxy_names : List Str)
    : List Str → List Str → List Str → Except String (List Str)
  | [], out, _ => .ok out
  | rule :: rest, out, seen =>
      match dropPrefix? "[]".data rule with
      | some target_group =>
          let target := trim target_group
          if target = [] then
            .error "empty group reference"
          else if target ∈ allowed_groups then
            let (out', seen') := push_unique out seen rule
            buildGroupLoop eng allowed_groups proxy_names rest out' seen'
          else
            .error "references unknown group"
      | none =>
          if rule ∈ proxy_names then
            let (out', seen') := push_unique out seen rule
            buildGroupLoop eng allowed_groups proxy_names rest out' seen'
          else
            match eng.compile rule with
            | .error _ => .error "failed to compile regex"
            | .ok isMatch =>
                match collectMatches isMatch proxy_names with
                | .error _ => .error "failed to apply regex"
                | .ok ms =>
                    if ms.isEmpty then
                      buildGroupLoop eng allowed_groups proxy_names rest out seen
                    else
                      let (out', seen') := push_all_unique out seen ms
                      buildGroupLoop eng allowed_groups proxy_names rest out' seen'

/-- `build_group` from `src/groups/mod.rs` (lines 71–137). -/
def build_group (eng : RegexEngine) (spec : GroupSpec)
    (allowed_groups proxy_names : List Str) : Except String ProxyGroup :=
  match buildGroupLoop eng allowed_groups proxy_names spec.rule [] [] with
  | .error e => .error e
  | .ok proxies =>
      .ok { name := spec.name, group_type := spec.group_type,
            proxies := proxies, url := spec.url, interval := spec.interval }

/-- The membership computation of C3's claim text, written from the spec:
process the rule strings in order; a `[]X` token with declared/`DIRECT`/
`REJECT` target appends the full token; a literal proxy name appends that
name; anything else compiles as a regex and appends every matching proxy
name in original proxy order; duplicates are dropped globally, keeping the
first occurrence. -/
def buildGroupMembershipSpec (eng : RegexEngine)
    (allowed_groups proxy_names : List Str) :
    List Str → List Str → Except String (List Str)
  | [], out => .ok out
  | rule :: rest, out =>
      match dropPrefix? "[]".data rule with
      | some target_group =>
          let target := trim target_group
          if target = [] then
            .error "empty group reference"
          else if target ∈ allowed_groups then
            buildGroupMembershipSpec eng allowed_groups proxy_names rest
              (if rule ∈ out then out else out ++ [rule])
          else
            .error "references unknown group"
      | none =>
          if rule ∈ proxy_names then
            buildGroupMembershipSpec eng allowed_groups proxy_names rest
              (if rule ∈ out then out else out ++ [rule])
          else
            match eng.compile rule with
            | .error _ => .error "failed to compile regex"
            | .ok isMatch =>
                match collectMatches isMatch proxy_names with
                | .error _ => .error "failed to apply regex"
                | .ok ms =>
                    buildGroupMembershipSpec eng allowed_groups proxy_names rest
                      (ms.foldl
                        (fun out v => if v ∈ out then out else out ++ [v]) out)

/-- The spec-loop of `build_groups`: skip specs whose name was already
resolved, otherwise resolve and append. -/
def buildGroupsLoop (eng : RegexEngine) (allowed_groups proxy_names : List Str)
    : List GroupSpec → List ProxyGroup → List Str →
      Except String (List ProxyGroup)
  | [], groups, _ => .ok groups
  | spec :: rest, groups, resolved =>
      if spec.name ∈ resolved then
        buildGroupsLoop eng allowed_groups proxy_names rest groups resolved
      else
        match build_group eng spec allowed_groups proxy_names with
        | .error e => .error e
        | .ok g =>
            buildGroupsLoop eng allowed_groups proxy_names rest
              (groups ++ [g]) (resolved ++ [g.name])

/-- `build_groups` from `src/groups/mod.rs` (lines 46–69). -/
def build_groups (eng : RegexEngine) (specs : List GroupSpec)
    (proxies : List Proxy) : Except String (List ProxyGroup) :=
  let proxy_names := proxies.map Proxy.name
  let allowed_groups := specs.map GroupSpec.name
    ++ ["DIRECT".data, "REJECT".data]
  buildGroupsLoop eng allowed_groups proxy_names specs [] []

/-- Keep the first occurrence of each element, skipping those already in
`seen`. -/
def dedupKeepFirst (seen : List Str) : List Str → List Str
  | [] => []
  | n :: ns =>
      if n ∈ seen then dedupKeepFirst seen ns
      else n :: dedupKeepFirst (seen ++ [n]) ns

/- ## Network layer (src/network/security.rs, src/network/mod.rs) -/

/-- The part of `reqwest::Url` the security check reads: `host_str()`. -/
structure Url where
  host : Option Str

/-- `NetworkError` from `src/network/mod.rs`; the status is the numeric
HTTP code (400 BAD_REQUEST, 403 FORBIDDEN, 500 INTERNAL, 502 BAD_GATEWAY). -/
structure NetworkError where
  status : Nat
  message : String
  deriving DecidableEq

/-- `Security` from `src/network/security.rs`. -/
structure Security where
  allowed_domains : List Str

/-- `Security::new`: the configured domains are lower-cased up front. -/
def Security.new (allowed_domains : List Str) : Security :=
  ⟨allowed_domains.map lowerAscii⟩

/-- `Security::validate_url` from `src/network/security.rs`
(lines 20–42). -/
def Security.validate_url (sec : Security) (url : Url) :
    Except NetworkError Unit :=
  match url.host with
  | none => .error ⟨400, "url missing host"⟩
  | some host =>
      if sec.allowed_domains.isEmpty then
        .error ⟨403, "allowed-domain list is empty"⟩
      else if sec.allowed_domains.any (fun domain => domain == lowerAscii host)
      then
        .ok ()
      else
        .error ⟨403, "domain not allowed"⟩

/-- The externally visible I/O actions of `get_or_fetch_with`, in order. -/
inductive NetEffect where
  | cacheRead
  | fetch (ua : Str)
  | store
  deriving DecidableEq

/-- The state of `Network` that `get_or_fetch_with` consults. -/
structure Network where
  cache_enabled : Bool
  security : Security

/-- The user-agent loop of `get_or_fetch_with`: GET with each user agent
in order; request failure or parse failure moves on to the next one; a
parse success stores (when the cache is enabled) and returns.  `fetchResult`
is the oracle for one GET (`none` covers request errors and non-2xx). -/
def fetchLoop {T : Type} (fetchResult : Str → Option Str)
    (parse : Str → Except String T) (should_store : Bool) :
    List Str → Option String → Except NetworkError T × List NetEffect
  | [], last_error =>
      (.error ⟨502, "failed to fetch subscription: "
        ++ last_error.getD "unknown error"⟩, [])
  | ua :: rest, last_error =>
      match fetchResult ua with
      | none =>
          let r := fetchLoop fetchResult parse should_store rest
            (some "request failed")
          (r.1, .fetch ua :: r.2)
      | some text =>
          match parse text with
          | .ok value =>
              (.ok value, [.fetch ua] ++ if should_store then [.store] else [])
          | .error _ =>
              let r := fetchLoop fetchResult parse should_store rest
                (some "failed to parse response")
              (r.1, .fetch ua :: r.2)

/-- `Network::get_or_fetch_with` from `src/network/mod.rs` (lines 41–104),
with the cache read and the HTTP client as oracles and the performed I/O
actions traced. -/
def Network.get_or_fetch_with {T : Type} (net : Network)
    (cacheResult : Except String (Option Str))
    (fetchResult : Str → Option Str) (url : Url) (user_agents : List Str)
    (no_cache : Bool) (parse : Str → Except String T) :
    Except NetworkError T × List NetEffect :=
  match net.security.validate_url url with
  | .error e => (.error e, [])
  | .ok _ =>
      let use_cache := net.cache_enabled && !no_cache
      let fetchPart := fun (pre : List NetEffect) =>
        if user_agents.isEmpty then
          (Except.error ⟨500, "no user agents configured for network fetch"⟩,
            pre)
        else
          let r := fetchLoop fetchResult parse net.cache_enabled
            user_agents none
          (r.1, pre ++ r.2)
      if use_cache then
        match cacheResult with
        | .error e => (.error ⟨500, e⟩, [.cacheRead])
        | .ok (some text) =>
            (match parse text with
              | .ok v => (.ok v, [.cacheRead])
              | .error e => (.error ⟨500, e⟩, [.cacheRead]))
        | .ok none => fetchPart [.cacheRead]
      else
        fetchPart []

/- ## Subscription fetch (src/server/mod.rs) -/

/-- `SUBSCRIPTION_USER_AGENTS` from `src/server/mod.rs` (line 148). -/
def SUBSCRIPTION_USER_AGENTS : List Str :=
  ["Clash/v1.18.0".data, "mihomo/1.18.3".data]

/-- The user-agent loop of `fetch_proxies_from_url`: request failures,
non-2xx statuses, body read failures (all folded into the `response`
oracle returning `none`), parse failures, and parses yielding zero proxies
all move on to the next user agent; the result records the attempted
user agents in order.  Errors carry the numeric HTTP status. -/
def fetchProxiesLoop (response : Str → Option Str)
    (parseProfile : Str → Except String (List Proxy)) :
    List Str → Option String →
      Except (Nat × String) (List Proxy) × List Str
  | [], last_error =>
      (.error (502, "failed to fetch subscription: "
        ++ last_error.getD "unknown error"), [])
  | ua :: rest, last_error =>
      match response ua with
      | none =>
          let r := fetchProxiesLoop response parseProfile rest
            (some "request failed")
          (r.1, ua :: r.2)
      | some text =>
          match parseProfile text with
          | .ok proxies =>
              if proxies.isEmpty then
                let r := fetchProxiesLoop response parseProfile rest
                  (some "no proxies found")
                (r.1, ua :: r.2)
              else
                (.ok proxies, [ua])
          | .error _ =>
              let r := fetchProxiesLoop response parseProfile rest
                (some "failed to parse response")
              (r.1, ua :: r.2)

/-- `fetch_proxies_from_url` from `src/server/mod.rs` (lines 272–326). -/
def fetch_proxies_from_url (response : Str → Option Str)
    (parseProfile : Str → Except String (List Proxy)) :
    Except (Nat × String) (List Proxy) × List Str :=
  fetchProxiesLoop response parseProfile SUBSCRIPTION_USER_AGENTS none

/- ## Surge bandwidth normalisation (src/export/surge.rs) -/

/-- The character class consumed by `parse_bandwidth`'s number scanner:
ASCII digits and `.`. -/
def isBwChar (c : Char) : Bool :=
  c.isDigit || c = '.'

/-- Value of an ASCII digit string. -/
def digitsVal (ds : Str) : ℕ :=
  ds.foldl (fun acc c => acc * 10 + (c.toNat - '0'.toNat)) 0

/-- `f64::from_str` restricted to the digit/dot strings the scanner can
produce, with the float value modelled exactly as a rational. -/
def parseDecimal? (s : Str) : Option ℚ :=
  if s = [] then none
  else if ¬ s.all isBwChar then none
  else
    match s.splitOn '.' with
    | [intPart] => some (digitsVal intPart)
    | [intPart, fracPart] =>
        if intPart = [] ∧ fracPart = [] then none
        else
          some ((digitsVal intPart : ℚ)
            + (digitsVal fracPart : ℚ) / (10 : ℚ) ^ fracPart.length)
    | _ => none

/-- `parse_bandwidth` from `src/export/surge.rs` (lines 140–172).  The
source returns `Result<Option<Number>>` but never errors, so the model is
total; `Number::from_f64` on the (finite) result always succeeds. -/
def parse_bandwidth : JValue → Option JValue
  | .int n => some (.int n)
  | .float q => some (.float q)
  | .str raw =>
      let s := trim raw
      let number := s.takeWhile isBwChar
      let unit := lowerAscii (trim (s.dropWhile isBwChar))
      match parseDecimal? number with
      | none => none
      | some base =>
          if unit = "gbps".data ∨ unit = "g".data ∨ unit = "gbit".data then
            some (.float (base * 1000))
          else if unit = "mbps".data ∨ unit = "m".data ∨ unit = "mbit".data
              ∨ unit = [] then
            some (.float base)
          else if unit = "kbps".data ∨ unit = "k".data ∨ unit = "kbit".data then
            some (.float (base / 1000))
          else if unit = "bps".data then
            some (.float (base / 1000000))
          else none
  | _ => none

/-- `normalize_hysteria2` from `src/export/surge.rs` (lines 72–82). -/
def normalize_hysteria2 (map : JsonMap) : JsonMap :=
  (map.map Prod.fst).foldl
    (fun m key =>
      match mget m key with
      | some val =>
          match parse_bandwidth val with
          | some bw => minsert m key bw
          | none => m
      | none => m)
    map

/-- `i64`/`u64` decimal display. -/
def intToStr (n : Int) : Str :=
  (toString n).data

/-- Textual form of a float value.  The numeric display format is not load
bearing for any claim; it is modelled by the rational's `toString`. -/
def floatToStr (q : ℚ) : Str :=
  (toString q).data

mutual

/-- `serde_json::Value`'s `Display` (compact JSON), used only in
`format_value`'s catch-all arm; string escaping is not modelled (no claim
depends on this textual form). -/
def jsonShow : JValue → Str
  | .null => "null".data
  | .bool b => if b then "true".data else "false".data
  | .int n => intToStr n
  | .float q => floatToStr q
  | .str s => '"' :: (s ++ ['"'])
  | .arr xs => '[' :: (jsonShowList xs ++ [']'])
  | .obj kvs => '{' :: (jsonShowObj kvs ++ ['}'])

def jsonShowList : List JValue → Str
  | [] => []
  | [x] => jsonShow x
  | x :: rest => jsonShow x ++ [','] ++ jsonShowList rest

def jsonShowObj : List (Str × JValue) → Str
  | [] => []
  | [(k, v)] => ('"' :: (k ++ ['"', ':'])) ++ jsonShow v
  | (k, v) :: rest =>
      ('"' :: (k ++ ['"', ':'])) ++ jsonShow v ++ [','] ++ jsonShowObj rest

end

/-- `format_value` from `src/export/surge.rs` (lines 174–181). -/
def format_value (key : Str) (value : JValue) : Str :=
  match value with
  | .bool b => key ++ "=".data ++ (if b then "true".data else "false".data)
  | .int n => key ++ "=".data ++ intToStr n
  | .float q => key ++ "=".data ++ floatToStr q
  | .str s => key ++ "=".data ++ s
  | other => key ++ "=".data ++ jsonShow other

/-- `get_string` from `src/export/surge.rs`. -/
def get_string (map : JsonMap) (key : Str) : Except String Str :=
  match mget map key with
  | some (.str s) => .ok s
  | _ => .error "surge export requires key"

/-- `get_number` from `src/export/surge.rs`. -/
def get_number (map : JsonMap) (key : Str) : Except String Str :=
  match mget map key with
  | some (.int n) => .ok (intToStr n)
  | _ => .error "surge export requires numeric key"

/-- Lexicographic (byte-order) comparison backing Rust's `Vec<String>::sort`. -/
def strLe (a b : Str) : Bool :=
  match a, b with
  | [], _ => true
  | _ :: _, [] => false
  | c :: cs, d :: ds => if c < d then true else if d < c then false else strLe cs ds

/-- `parse_opts` from `src/export/surge.rs` (lines 132–138). -/
def parse_opts (value : Option JValue) : Except String JsonMap :=
  match value with
  | some (.obj map) => .ok map
  | some _ => .error "shadowsocks plugin-opts must be a map"
  | none => .ok []

/-- `opts.get(k).and_then(as_str)` followed by a conditional insert, the
pattern `apply_obfs` uses for `obfs-host` and `obfs-uri`. -/
def insertIfStr (m : JsonMap) (key : Str) (o : Option JValue) : JsonMap :=
  match o with
  | some (.str s) => minsert m key (.str s)
  | _ => m

/-- `apply_obfs` from `src/export/surge.rs` (lines 109–130). -/
def apply_obfs (opts : JsonMap) (map : JsonMap) : Except String JsonMap :=
  match mget opts "mode".data with
  | some (.str mode) =>
      let m1 := minsert map "obfs".data (.str mode)
      let m2 := insertIfStr m1 "obfs-host".data (mget opts "host".data)
      let m3 := insertIfStr m2 "obfs-uri".data
        (match mget opts "uri".data with
          | some v => some v
          | none => mget opts "path".data)
      .ok m3
  | _ => .error "shadowsocks obfs plugin requires mode"

/-- The `type`/`cipher` rewriting head of `normalize_shadowsocks`. -/
def normalize_shadowsocks_rename (map0 : JsonMap) : JsonMap :=
  let m1 := minsert map0 "type".data (.str "ss".data)
  match mget m1 "cipher".data with
  | some cipher =>
      minsert (mremove m1 "cipher".data) "encrypt-method".data cipher
  | none => m1

/-- The plugin-folding tail of `normalize_shadowsocks`: take `plugin` and
`plugin-opts` out of the map, then fold an `obfs` plugin into flat keys
(any other plugin value is an error). -/
def normalize_shadowsocks_plugins (m2 : JsonMap) : Except String JsonMap :=
  let plugin := mget m2 "plugin".data
  let m3 := mremove m2 "plugin".data
  let plugin_opts := mget m3 "plugin-opts".data
  let m4 := mremove m3 "plugin-opts".data
  match plugin with
  | none => .ok m4
  | some (.str plugin_name) =>
      match parse_opts plugin_opts with
      | .error e => .error e
      | .ok opts =>
          if plugin_name = "obfs".data then apply_obfs opts m4
          else .error "surge exporter does not support this shadowsocks plugin"
  | some _ => .error "shadowsocks plugin must be a string"

/-- `normalize_shadowsocks` from `src/export/surge.rs` (lines 84–107):
rewrite `type` to `ss`, rename `cipher` to `encrypt-method`, then fold the
plugin options. -/
def normalize_shadowsocks (map0 : JsonMap) : Except String JsonMap :=
  normalize_shadowsocks_plugins (normalize_shadowsocks_rename map0)

/-- `render_common_line` from `src/export/surge.rs` (lines 43–70). -/
def render_common_line (name server port : Str) (rendered_map : JsonMap) :
    Except String JValue :=
  match get_string rendered_map "type".data with
  | .error e => .error e
  | .ok type_value =>
      let headPart := name ++ " = ".data ++ type_value ++ ", ".data
        ++ server ++ ", ".data ++ port
      let base_keys : List Str :=
        ["name".data, "type".data, "server".data, "port".data]
      let rest_keys :=
        ((rendered_map.map Prod.fst).filter
          (fun k => decide (k ∉ base_keys))).mergeSort strLe
      let parts := headPart ::
        rest_keys.filterMap
          (fun key => (mget rendered_map key).map (format_value key))
      .ok (.str (List.intercalate ", ".data parts))

/-- `SurgeExporter::render` from `src/export/surge.rs` (lines 14–41). -/
def surge_export (protocol : Str) (normalized : JsonMap)
    (rendered : JValue) : Except String JValue :=
  match rendered with
  | .obj rendered_map =>
      let normRes : Except String JsonMap :=
        if protocol = "hysteria2".data then .ok (normalize_hysteria2 rendered_map)
        else if protocol = "shadowsocks".data then
          normalize_shadowsocks rendered_map
        else .ok rendered_map
      match normRes with
      | .error e => .error e
      | .ok m =>
          match mget normalized "name".data with
          | some (.str name) =>
              match get_string m "server".data with
              | .error e => .error e
              | .ok server =>
                  match get_number m "port".data with
                  | .error e => .error e
                  | .ok port => render_common_line name server port m
          | _ => .error "surge export requires name"
  | _ => .error "surge rendering expects object from template"

theorem length_dropWhile_le (p : Char → Bool) (l : Str) :
    (l.dropWhile p).length ≤ l.length := by
  induction l with
  | nil => simp
  | cons c cs ih =>
      rw [List.dropWhile_cons]
      by_cases hp : p c
      · simpa [hp] using Nat.le_trans ih (Nat.le_succ _)
      · simp [hp]

theorem takeWhile_append_of_all {p : Char → Bool} (d u : Str)
    (h : ∀ c ∈ d, p c = true) :
    (d ++ u).takeWhile p = d ++ u.takeWhile p := by
  induction d with
  | nil => simp
  | cons c cs ih =>
      simp only [List.cons_append, List.takeWhile_cons,
        h c (List.mem_cons_self c cs)]
      rw [ih (fun x hx => h x (List.mem_cons_of_mem c hx))]
      simp

theorem dropWhile_append_of_all {p : Char → Bool} (d u : Str)
    (h : ∀ c ∈ d, p c = true) :
    (d ++ u).dropWhile p = u.dropWhile p := by
  induction d with
  | nil => simp
  | cons c cs ih =>
      simp only [List.cons_append, List.dropWhile_cons,
        h c (List.mem_cons_self c cs)]
      exact ih (fun x hx => h x (List.mem_cons_of_mem c hx))

theorem dropWhile_eq_self_of_head {p : Char → Bool} (l : Str)
    (h : ∀ c, l.head? = some c → p c = false) :
    l.dropWhile p = l := by
  cases l with
  | nil => rfl
  | cons c cs => simp [List.dropWhile_cons, h c rfl]

theorem takeWhile_eq_nil_of_head {p : Char → Bool} (l : Str)
    (h : ∀ c, l.head? = some c → p c = false) :
    l.takeWhile p = [] := by
  cases l with
  | nil => rfl
  | cons c cs => simp [List.takeWhile_cons, h c rfl]

theorem head_false_of_dropWhile_eq_self {p : Char → Bool} (l : Str)
    (h : l.dropWhile p = l) : ∀ c, l.head? = some c → p c = false := by
  intro c hc
  cases l with
  | nil => simp at hc
  | cons x xs =>
      obtain rfl : x = c := by simpa using hc
      by_contra hp
      rw [Bool.not_eq_false] at hp
      rw [List.dropWhile_cons, if_pos hp] at h
      have := length_dropWhile_le p xs
      have hlen := congrArg List.length h
      simp at hlen
      omega

theorem isBwChar_not_ws {c : Char} (h : isBwChar c = true) :
    c.isWhitespace = false := by
  by_contra hw
  rw [Bool.not_eq_false] at hw
  have hcases : c = ' ' ∨ c = '\t' ∨ c = '\r' ∨ c = '\n' := by
    have := by simpa [Char.isWhitespace] using hw
    tauto
  rcases hcases with rfl | rfl | rfl | rfl <;> simp [isBwChar] at h

theorem trimRight_eq_self_of_getLast {l : Str}
    (h : ∀ c, l.getLast? = some c → c.isWhitespace = false) :
    trimRight l = l := by
  unfold trimRight
  rw [dropWhile_eq_self_of_head]
  · exact List.reverse_reverse l
  · intro c hc
    exact h c (by rwa [List.head?_reverse] at hc)

theorem getLast_not_ws_of_trimRight {u : Str} (h : trimRight u = u) :
    ∀ c, u.getLast? = some c → c.isWhitespace = false := by
  intro c hc
  have hrev : u.reverse.dropWhile (fun c => c.isWhitespace) = u.reverse := by
    have := congrArg List.reverse h
    rwa [trimRight, List.reverse_reverse] at this
  exact head_false_of_dropWhile_eq_self _ hrev c
    (by rwa [List.head?_reverse])

theorem parseDecimal?_props {d : Str} {q : ℚ} (h : parseDecimal? d = some q) :
    d ≠ [] ∧ ∀ c ∈ d, isBwChar c = true := by
  rw [parseDecimal?] at h
  by_cases hnil : d = []
  · simp [hnil] at h
  · rw [if_neg hnil] at h
    by_cases hall : d.all isBwChar
    · exact ⟨hnil, fun c hc => by
        have := List.all_eq_true.mp hall c hc
        simpa using this⟩
    · simp [hall] at h

theorem dropPrefix?_append (p s : Str) : dropPrefix? p (p ++ s) = some s := by
  induction p with
  | nil => rfl
  | cons c cs ih => simp [dropPrefix?, ih]

theorem mget_mem {m : JsonMap} {k : Str} {v : JValue} (h : mget m k = some v) :
    (k, v) ∈ m := by
  induction m with
  | nil => simp [mget] at h
  | cons kv rest ih =>
      obtain ⟨k', v'⟩ := kv
      rw [mget] at h
      by_cases hk : k' = k
      · rw [if_pos hk] at h
        obtain rfl := hk
        obtain rfl : v' = v := by simpa using h
        exact List.mem_cons_self _ _
      · rw [if_neg hk] at h
        exact List.mem_cons_of_mem _ (ih h)

/-- C6: the surge bandwidth normalizer follows the spec's unit table
(gbps|g|gbit ⇒ ×1000, mbps|m|mbit|"" ⇒ ×1, kbps|k|kbit ⇒ ÷1000,
bps ⇒ ÷1 000 000, anything else untouched), leaves maps whose values do
not parse untouched, and maps the spec's four examples as stated. -/
theorem bandwidth_normalizer_table :
    (∀ (d u : Str) (q : ℚ), parseDecimal? d = some q →
      (∀ c, u.head? = some c → isBwChar c = false) →
      trimRight u = u →
      parse_bandwidth (.str (d ++ u)) =
        (if lowerAscii (trim u) = "gbps".data ∨ lowerAscii (trim u) = "g".data
            ∨ lowerAscii (trim u) = "gbit".data then
          some (.float (q * 1000))
        else if lowerAscii (trim u) = "mbps".data
            ∨ lowerAscii (trim u) = "m".data
            ∨ lowerAscii (trim u) = "mbit".data
            ∨ lowerAscii (trim u) = [] then
          some (.float q)
        else if lowerAscii (trim u) = "kbps".data
            ∨ lowerAscii (trim u) = "k".data
            ∨ lowerAscii (trim u) = "kbit".data then
          some (.float (q / 1000))
        else if lowerAscii (trim u) = "bps".data then
          some (.float (q / 1000000))
        else none))
    ∧ (∀ m : JsonMap, (∀ kv ∈ m, parse_bandwidth kv.2 = none) →
        normalize_hysteria2 m = m)
    ∧ parse_bandwidth (.str "100 mbps".data) = some (.float 100)
    ∧ parse_bandwidth (.str "1gbps".data) = some (.float 1000)
    ∧ parse_bandwidth (.str "500 kbps".data) = some (.float (1 / 2))
    ∧ parse_bandwidth (.str "fast".data) = none := by
  refine ⟨?_, ?_, ?_, ?_, ?_, ?_⟩
  · intro d u q hd hu hut
    obtain ⟨hdne, hall⟩ := parseDecimal?_props hd
    obtain ⟨c0, d', rfl⟩ := List.exists_cons_of_ne_nil hdne
    have hc0 : isBwChar c0 = true := hall c0 (List.mem_cons_self _ _)
    have hc0w : c0.isWhitespace = false := isBwChar_not_ws hc0
    have htl : trimLeft ((c0 :: d') ++ u) = (c0 :: d') ++ u := by
      simp [trimLeft, List.dropWhile_cons, hc0w]
    have hgl : ∀ c, ((c0 :: d') ++ u).getLast? = some c →
        c.isWhitespace = false := by
      intro c hc
      by_cases hun : u = []
      · subst hun
        rw [List.append_nil] at hc
        obtain ⟨hne, rfl⟩ := List.mem_getLast?_eq_getLast hc
        exact isBwChar_not_ws (hall _ (List.getLast_mem hne))
      · rw [List.getLast?_append_of_ne_nil _ hun] at hc
        exact getLast_not_ws_of_trimRight hut c hc
    have htr : trimRight ((c0 :: d') ++ u) = (c0 :: d') ++ u :=
      trimRight_eq_self_of_getLast hgl
    have htrim : trim ((c0 :: d') ++ u) = (c0 :: d') ++ u := by
      rw [trim, htl, htr]
    have htk : ((c0 :: d') ++ u).takeWhile isBwChar = c0 :: d' := by
      rw [takeWhile_append_of_all _ _ hall, takeWhile_eq_nil_of_head u hu,
        List.append_nil]
    have hdw : ((c0 :: d') ++ u).dropWhile isBwChar = u := by
      rw [dropWhile_append_of_all _ _ hall, dropWhile_eq_self_of_head u hu]
    simp only [parse_bandwidth]
    rw [htrim, htk, hdw, hd]
  · intro m h
    unfold normalize_hysteria2
    generalize m.map Prod.fst = ks
    induction ks with
    | nil => rfl
    | cons k ks ih =>
        rw [List.foldl_cons]
        have hstep :
            (match mget m k with
              | some val =>
                  match parse_bandwidth val with
                  | some bw => minsert m k bw
                  | none => m
              | none => m) = m := by
          cases hm : mget m k with
          | none => rfl
          | some val =>
              have := h (k, val) (mget_mem hm)
              simp only [this]
        rw [hstep]
        exact ih
  · have e : parse_bandwidth (.str "100 mbps".data)
        = some (.float ((100 : ℕ) : ℚ)) := rfl
    rw [e]
    norm_num
  · have e : parse_bandwidth (.str "1gbps".data)
        = some (.float (((1 : ℕ) : ℚ) * 1000)) := rfl
    rw [e]
    norm_num
  · have e : parse_bandwidth (.str "500 kbps".data)
        = some (.float (((500 : ℕ) : ℚ) / 1000)) := rfl
    rw [e]
    norm_num
  · rfl

theorem bandwidth_normalizer_table_witness :
    parse_bandwidth (.str ("500".data ++ " kbps".data))
      = some (.float (((500 : ℕ) : ℚ) / 1000)) := by
  have h := bandwidth_normalizer_table.1 "500".data " kbps".data
    ((500 : ℕ) : ℚ) rfl
    (by
      intro c hc
      obtain rfl : ' ' = c := by simpa using hc
      decide)
    (by decide)
  rw [h]
  simp +decide

/-- C1: `render_template` on a `Field` follows the spec's five cases: a
present value equal to the default is dropped, any other present value is
emitted as-is, an absent key with a default set emits nothing (the default
is never injected), an absent optional key emits nothing, and an absent
key with neither default nor optional fails. -/
theorem render_template_field_semantics (f : FieldRef) (ctx : JsonMap) :
    (∀ v, mget ctx f.«from» = some v → f.default = some v →
      render_template (.field f) ctx = .ok none)
    ∧ (∀ v, mget ctx f.«from» = some v → f.default ≠ some v →
      render_template (.field f) ctx = .ok (some v))
    ∧ (mget ctx f.«from» = none → f.default.isSome →
      render_template (.field f) ctx = .ok none)
    ∧ (mget ctx f.«from» = none → f.default = none → f.optional = true →
      render_template (.field f) ctx = .ok none)
    ∧ (mget ctx f.«from» = none → f.default = none → f.optional = false →
      render_template (.field f) ctx = .error "missing required field") := by
  refine ⟨?_, ?_, ?_, ?_, ?_⟩
  · intro v hv hd
    simp [render_template, hv, hd]
  · intro v hv hd
    cases hdd : f.default with
    | none => simp [render_template, hv, hdd]
    | some d =>
        have hne : ¬ v = d := by
          rintro rfl
          exact hd hdd
        simp [render_template, hv, hdd, hne]
  · intro hv hs
    simp [render_template, hv, hs]
  · intro hv hd ho
    simp [render_template, hv, hd, ho]
  · intro hv hd ho
    simp [render_template, hv, hd, ho]

theorem render_template_field_semantics_witness :
    render_template (.field ⟨"password".data, false, none⟩) []
      = .error "missing required field" :=
  (render_template_field_semantics ⟨"password".data, false, none⟩ []).2.2.2.2
    rfl rfl rfl

/-- C10: on a `SRC-IP-CIDR` rule that already carries `no-resolve`, the
surge rewrite swaps the prefix and appends a second `,no-resolve`,
duplicating the flag. -/
theorem surge_src_ip_cidr_duplicates_no_resolve (r : Rule) (c : Str)
    (hty : r.rule_type = "SRC-IP-CIDR".data) (hc : r.content = some c)
    (hf : r.flags.no_resolve = true) :
    surge_rewrite_rule_line r.render
      = "IP-CIDR,".data ++ c ++ ",".data ++ r.group
          ++ ",no-resolve,no-resolve".data := by
  have hrender : r.render
      = "SRC-IP-CIDR,".data
          ++ (c ++ ",".data ++ r.group ++ ",no-resolve".data) := by
    simp [Rule.render, hty, hc, hf, List.intercalate]
  have hne : r.render ≠ "SRC-IP-CIDR".data := by
    rw [hrender]
    intro h
    apply_fun List.length at h
    simp [List.length_append] at h
  rw [surge_rewrite_rule_line, if_neg hne, hrender, dropPrefix?_append]
  simp

theorem push_unique_diag (out : List Str) (v : Str) :
    push_unique out out v =
      ((if v ∈ out then out else out ++ [v]),
        (if v ∈ out then out else out ++ [v])) := by
  rw [push_unique]
  split <;> rfl

theorem push_all_unique_diag (vs : List Str) (out : List Str) :
    push_all_unique out out vs =
      ((vs.foldl (fun o v => if v ∈ o then o else o ++ [v]) out),
        (vs.foldl (fun o v => if v ∈ o then o else o ++ [v]) out)) := by
  induction vs generalizing out with
  | nil => rfl
  | cons v vs ih =>
      rw [push_all_unique, List.foldl_cons, push_unique_diag, List.foldl_cons]
      exact ih _

theorem buildGroupLoop_eq_spec (eng : RegexEngine)
    (allowed_groups proxy_names : List Str) :
    ∀ (rules out : List Str),
      buildGroupLoop eng allowed_groups proxy_names rules out out
        = buildGroupMembershipSpec eng allowed_groups proxy_names rules out := by
  intro rules
  induction rules with
  | nil => intro out; rfl
  | cons rule rest ih =>
      intro out
      cases hpre : dropPrefix? "[]".data rule with
      | some target_group =>
          simp only [buildGroupLoop, buildGroupMembershipSpec, hpre]
          by_cases hemp : trim target_group = []
          · rw [if_pos hemp, if_pos hemp]
          · rw [if_neg hemp, if_neg hemp]
            by_cases hmem : trim target_group ∈ allowed_groups
            · rw [if_pos hmem, if_pos hmem, push_unique_diag]
              exact ih _
            · rw [if_neg hmem, if_neg hmem]
      | none =>
          simp only [buildGroupLoop, buildGroupMembershipSpec, hpre]
          by_cases hp : rule ∈ proxy_names
          · rw [if_pos hp, if_pos hp, push_unique_diag]
            exact ih _
          · rw [if_neg hp, if_neg hp]
            cases hc : eng.compile rule with
            | error e => simp only [hc]
            | ok isMatch =>
                simp only [hc]
                cases hm : collectMatches isMatch proxy_names with
                | error e => simp only [hm]
                | ok ms =>
                    simp only [hm]
                    by_cases hms : ms.isEmpty = true
                    · obtain rfl : ms = [] := by
                        cases ms with
                        | nil => rfl
                        | cons a l => simp [List.isEmpty] at hms
                      rw [if_pos hms]
                      exact ih out
                    · rw [if_neg hms, push_all_unique_diag]
                      exact ih _

/-- C3: `build_group` computes exactly the membership described by the
spec: rule strings in order, `[]X` back-references appended whole after
validation, literal proxy names appended, anything else compiled as a
regex appending every matching proxy name in original proxy order, with
duplicates dropped globally per group keeping the first occurrence. -/
theorem build_group_matches_spec (eng : RegexEngine) (spec : GroupSpec)
    (allowed_groups proxy_names : List Str) :
    build_group eng spec allowed_groups proxy_names
      = (buildGroupMembershipSpec eng allowed_groups proxy_names
            spec.rule []).map
          (fun proxies =>
            { name := spec.name, group_type := spec.group_type,
              proxies := proxies, url := spec.url,
              interval := spec.interval }) := by
  rw [build_group, buildGroupLoop_eq_spec]
  cases buildGroupMembershipSpec eng allowed_groups proxy_names spec.rule []
    with
  | error e => rfl
  | ok proxies => rfl

theorem mget_minsert_self (m : JsonMap) (k : Str) (v : JValue) :
    mget (minsert m k v) k = some v := by
  induction m with
  | nil => simp [minsert, mget]
  | cons kv rest ih =>
      obtain ⟨k', v'⟩ := kv
      rw [minsert]
      by_cases h : k' = k
      · rw [if_pos h, mget, if_pos rfl]
      · rw [if_neg h, mget, if_neg h]
        exact ih

theorem mget_minsert_ne (m : JsonMap) {k k' : Str} (h : k' ≠ k)
    (v : JValue) : mget (minsert m k v) k' = mget m k' := by
  have hne : ¬ k = k' := fun hh => h hh.symm
  induction m with
  | nil =>
      simp only [minsert, mget]
      rw [if_neg hne]
  | cons kv rest ih =>
      obtain ⟨k0, v0⟩ := kv
      rw [minsert]
      by_cases h0 : k0 = k
      · subst h0
        rw [if_pos rfl, mget, if_neg hne, mget, if_neg hne]
      · rw [if_neg h0, mget, mget]
        by_cases h1 : k0 = k'
        · rw [if_pos h1, if_pos h1]
        · rw [if_neg h1, if_neg h1]
          exact ih

theorem mget_mremove_ne (m : JsonMap) {k k' : Str} (h : k' ≠ k) :
    mget (mremove m k) k' = mget m k' := by
  induction m with
  | nil => rfl
  | cons kv rest ih =>
      obtain ⟨k0, v0⟩ := kv
      rw [mremove]
      by_cases h0 : k0 = k
      · rw [if_pos h0, mget, if_neg (by rw [h0]; exact fun hh => h hh.symm)]
      · rw [if_neg h0, mget, mget]
        by_cases h1 : k0 = k'
        · rw [if_pos h1, if_pos h1]
        · rw [if_neg h1, if_neg h1]
          exact ih

theorem mget_eq_none_iff (m : JsonMap) (k : Str) :
    mget m k = none ↔ k ∉ m.map Prod.fst := by
  induction m with
  | nil => simp [mget]
  | cons kv rest ih =>
      obtain ⟨k0, v0⟩ := kv
      rw [mget]
      by_cases h0 : k0 = k
      · subst h0
        simp
      · rw [if_neg h0]
        simp only [List.map_cons, List.mem_cons]
        rw [ih]
        constructor
        · intro hn hor
          rcases hor with hor | hor
          · exact h0 hor.symm
          · exact hn hor
        · intro hn
          exact fun hmem => hn (Or.inr hmem)

theorem mem_keys_of_mget {m : JsonMap} {k : Str} {v : JValue}
    (h : mget m k = some v) : k ∈ m.map Prod.fst := by
  by_contra hmem
  rw [← mget_eq_none_iff] at hmem
  rw [hmem] at h
  cases h

theorem mem_keys_minsert {m : JsonMap} {k x : Str} {v : JValue}
    (h : x ∈ (minsert m k v).map Prod.fst) :
    x ∈ m.map Prod.fst ∨ x = k := by
  induction m with
  | nil =>
      simp only [minsert, List.map_cons, List.map_nil, List.mem_cons,
        List.not_mem_nil, or_false] at h
      exact Or.inr h
  | cons kv rest ih =>
      obtain ⟨k0, v0⟩ := kv
      rw [minsert] at h
      by_cases h0 : k0 = k
      · rw [if_pos h0] at h
        simp only [List.map_cons, List.mem_cons] at h
        rcases h with h1 | h1
        · exact Or.inr h1
        · left
          simp only [List.map_cons, List.mem_cons]
          exact Or.inr h1
      · rw [if_neg h0] at h
        simp only [List.map_cons, List.mem_cons] at h
        rcases h with h1 | h1
        · left
          simp [h1]
        · rcases ih h1 with h2 | h2
          · left
            simp only [List.map_cons, List.mem_cons]
            exact Or.inr h2
          · exact Or.inr h2

theorem mem_keys_mremove {m : JsonMap} {k x : Str}
    (h : x ∈ (mremove m k).map Prod.fst) : x ∈ m.map Prod.fst := by
  induction m with
  | nil => simpa [mremove] using h
  | cons kv rest ih =>
      obtain ⟨k0, v0⟩ := kv
      rw [mremove] at h
      by_cases h0 : k0 = k
      · rw [if_pos h0] at h
        simp only [List.map_cons, List.mem_cons]
        exact Or.inr h
      · rw [if_neg h0] at h
        simp only [List.map_cons, List.mem_cons] at h ⊢
        rcases h with h1 | h1
        · exact Or.inl h1
        · exact Or.inr (ih h1)

theorem nodup_minsert (m : JsonMap) (k : Str) (v : JValue)
    (h : (m.map Prod.fst).Nodup) :
    ((minsert m k v).map Prod.fst).Nodup := by
  induction m with
  | nil => simp [minsert]
  | cons kv rest ih =>
      obtain ⟨k0, v0⟩ := kv
      rw [List.map_cons, List.nodup_cons] at h
      obtain ⟨h1, h2⟩ := h
      rw [minsert]
      by_cases h0 : k0 = k
      · rw [if_pos h0]
        subst h0
        rw [List.map_cons, List.nodup_cons]
        exact ⟨h1, h2⟩
      · rw [if_neg h0]
        rw [List.map_cons, List.nodup_cons]
        refine ⟨?_, ih h2⟩
        intro hmem
        rcases mem_keys_minsert hmem with hx | hx
        · exact h1 hx
        · exact h0 hx

theorem nodup_mremove (m : JsonMap) (k : Str)
    (h : (m.map Prod.fst).Nodup) :
    ((mremove m k).map Prod.fst).Nodup := by
  induction m with
  | nil => simpa [mremove] using h
  | cons kv rest ih =>
      obtain ⟨k0, v0⟩ := kv
      rw [List.map_cons, List.nodup_cons] at h
      obtain ⟨h1, h2⟩ := h
      rw [mremove]
      by_cases h0 : k0 = k
      · rw [if_pos h0]
        exact h2
      · rw [if_neg h0]
        rw [List.map_cons, List.nodup_cons]
        exact ⟨fun hmem => h1 (mem_keys_mremove hmem), ih h2⟩

theorem mget_mremove_self (m : JsonMap) (k : Str)
    (h : (m.map Prod.fst).Nodup) : mget (mremove m k) k = none := by
  induction m with
  | nil => rfl
  | cons kv rest ih =>
      obtain ⟨k0, v0⟩ := kv
      rw [List.map_cons, List.nodup_cons] at h
      obtain ⟨h1, h2⟩ := h
      rw [mremove]
      by_cases h0 : k0 = k
      · rw [if_pos h0]
        subst h0
        rw [mget_eq_none_iff]
        exact h1
      · rw [if_neg h0, mget, if_neg h0]
        exact ih h2

theorem mget_insertIfStr_ne (m : JsonMap) {key k : Str} (o : Option JValue)
    (h : k ≠ key) : mget (insertIfStr m key o) k = mget m k := by
  cases o with
  | none => rfl
  | some v => cases v <;> first | rfl | exact mget_minsert_ne m h _

theorem mget_insertIfStr_str (m : JsonMap) (key : Str) {s : Str}
    {o : Option JValue} (h : o = some (.str s)) :
    mget (insertIfStr m key o) key = some (.str s) := by
  subst h
  exact mget_minsert_self m key _

theorem nodup_insertIfStr (m : JsonMap) (key : Str) (o : Option JValue)
    (h : (m.map Prod.fst).Nodup) :
    ((insertIfStr m key o).map Prod.fst).Nodup := by
  cases o with
  | none => exact h
  | some v => cases v <;> first | exact h | exact nodup_minsert m key _ h

theorem mem_keys_insertIfStr {m : JsonMap} {key x : Str} {o : Option JValue}
    (h : x ∈ (insertIfStr m key o).map Prod.fst) :
    x ∈ m.map Prod.fst ∨ x = key := by
  cases o with
  | none => exact Or.inl h
  | some v => cases v <;> first | exact Or.inl h | exact mem_keys_minsert h

theorem apply_obfs_spec {opts map : JsonMap} {mode : Str}
    (hmode : mget opts "mode".data = some (.str mode))
    (hnd : (map.map Prod.fst).Nodup) :
    ∃ m', apply_obfs opts map = .ok m'
      ∧ mget m' "obfs".data = some (.str mode)
      ∧ (∀ host, mget opts "host".data = some (.str host) →
          mget m' "obfs-host".data = some (.str host))
      ∧ (∀ uri, mget opts "uri".data = some (.str uri) →
          mget m' "obfs-uri".data = some (.str uri))
      ∧ (∀ path, mget opts "uri".data = none →
          mget opts "path".data = some (.str path) →
          mget m' "obfs-uri".data = some (.str path))
      ∧ (m'.map Prod.fst).Nodup
      ∧ (∀ k, k ∈ (m'.map Prod.fst) →
          k ∈ map.map Prod.fst
            ∨ k ∈ ["obfs".data, "obfs-host".data, "obfs-uri".data])
      ∧ (∀ k, k ≠ "obfs".data → k ≠ "obfs-host".data → k ≠ "obfs-uri".data →
          mget m' k = mget map k) := by
  simp only [apply_obfs, hmode]
  refine ⟨_, rfl, ?_, ?_, ?_, ?_, ?_, ?_, ?_⟩
  · rw [mget_insertIfStr_ne _ _ (by decide),
      mget_insertIfStr_ne _ _ (by decide)]
    exact mget_minsert_self _ _ _
  · intro host hhost
    rw [mget_insertIfStr_ne _ _ (by decide)]
    exact mget_insertIfStr_str _ _ hhost
  · intro uri huri
    exact mget_insertIfStr_str _ _ (by rw [huri])
  · intro path hu hp
    exact mget_insertIfStr_str _ _ (by simp only [hu, hp])
  · exact nodup_insertIfStr _ _ _
      (nodup_insertIfStr _ _ _ (nodup_minsert _ _ _ hnd))
  · intro k hk
    rcases mem_keys_insertIfStr hk with hk | hk
    · rcases mem_keys_insertIfStr hk with hk | hk
      · rcases mem_keys_minsert hk with hk | hk
        · exact Or.inl hk
        · exact Or.inr (by simp [hk])
      · exact Or.inr (by simp [hk])
    · exact Or.inr (by simp [hk])
  · intro k h1 h2 h3
    rw [mget_insertIfStr_ne _ _ h3, mget_insertIfStr_ne _ _ h2,
      mget_minsert_ne _ h1]

theorem normalize_shadowsocks_plugins_obfs {m2 opts : JsonMap} {mode : Str}
    (hnd : (m2.map Prod.fst).Nodup)
    (hplugin : mget m2 "plugin".data = some (.str "obfs".data))
    (hopts : mget m2 "plugin-opts".data = some (.obj opts))
    (hmode : mget opts "mode".data = some (.str mode)) :
    ∃ m', normalize_shadowsocks_plugins m2 = .ok m'
      ∧ mget m' "obfs".data = some (.str mode)
      ∧ (∀ host, mget opts "host".data = some (.str host) →
          mget m' "obfs-host".data = some (.str host))
      ∧ (∀ uri, mget opts "uri".data = some (.str uri) →
          mget m' "obfs-uri".data = some (.str uri))
      ∧ (∀ path, mget opts "uri".data = none →
          mget opts "path".data = some (.str path) →
          mget m' "obfs-uri".data = some (.str path))
      ∧ mget m' "plugin".data = none
      ∧ mget m' "plugin-opts".data = none
      ∧ (m'.map Prod.fst).Nodup
      ∧ (∀ k, k ≠ "plugin".data → k ≠ "plugin-opts".data →
          k ≠ "obfs".data → k ≠ "obfs-host".data → k ≠ "obfs-uri".data →
          mget m' k = mget m2 k) := by
  have hnd3 : (((mremove m2 "plugin".data).map Prod.fst)).Nodup :=
    nodup_mremove _ _ hnd
  have hnd4 : ((((mremove (mremove m2 "plugin".data) "plugin-opts".data)).map
      Prod.fst)).Nodup := nodup_mremove _ _ hnd3
  have hopts3 : mget (mremove m2 "plugin".data) "plugin-opts".data
      = some (.obj opts) := by
    rw [mget_mremove_ne _ (by decide)]
    exact hopts
  obtain ⟨m', hok, hobfs, hhost, huri, hpath, hnd', hkeys, hpres⟩ :=
    @apply_obfs_spec _ (mremove (mremove m2 "plugin".data)
      "plugin-opts".data) _ hmode hnd4
  have hrun : normalize_shadowsocks_plugins m2 = .ok m' := by
    simp only [normalize_shadowsocks_plugins, hplugin, hopts3, parse_opts]
    rw [if_pos trivial]
    exact hok
  have hplug4 : mget (mremove (mremove m2 "plugin".data) "plugin-opts".data)
      "plugin".data = none := by
    rw [mget_mremove_ne _ (by decide)]
    exact mget_mremove_self _ _ hnd
  have hpopts4 : mget (mremove (mremove m2 "plugin".data) "plugin-opts".data)
      "plugin-opts".data = none := mget_mremove_self _ _ hnd3
  refine ⟨m', hrun, hobfs, hhost, huri, hpath, ?_, ?_, hnd', ?_⟩
  · rw [hpres _ (by decide) (by decide) (by decide)]
    exact hplug4
  · rw [hpres _ (by decide) (by decide) (by decide)]
    exact hpopts4
  · intro k h1 h2 h3 h4 h5
    rw [hpres _ h3 h4 h5, mget_mremove_ne _ h2, mget_mremove_ne _ h1]

theorem normalize_shadowsocks_rename_type (m : JsonMap) :
    mget (normalize_shadowsocks_rename m) "type".data
      = some (.str "ss".data) := by
  rw [normalize_shadowsocks_rename]
  cases hc : mget (minsert m "type".data (.str "ss".data)) "cipher".data with
  | none => exact mget_minsert_self _ _ _
  | some cipher =>
      rw [mget_minsert_ne _ (by decide), mget_mremove_ne _ (by decide)]
      exact mget_minsert_self _ _ _

theorem normalize_shadowsocks_rename_preserves (m : JsonMap) {k : Str}
    (h1 : k ≠ "type".data) (h2 : k ≠ "cipher".data)
    (h3 : k ≠ "encrypt-method".data) :
    mget (normalize_shadowsocks_rename m) k = mget m k := by
  rw [normalize_shadowsocks_rename]
  cases hc : mget (minsert m "type".data (.str "ss".data)) "cipher".data with
  | none => exact mget_minsert_ne _ h1 _
  | some cipher =>
      rw [mget_minsert_ne _ h3, mget_mremove_ne _ h2, mget_minsert_ne _ h1]

theorem normalize_shadowsocks_rename_nodup (m : JsonMap)
    (h : (m.map Prod.fst).Nodup) :
    ((normalize_shadowsocks_rename m).map Prod.fst).Nodup := by
  rw [normalize_shadowsocks_rename]
  cases hc : mget (minsert m "type".data (.str "ss".data)) "cipher".data with
  | none => exact nodup_minsert _ _ _ h
  | some cipher =>
      exact nodup_minsert _ _ _ (nodup_mremove _ _ (nodup_minsert _ _ _ h))

/-- C7: for a shadowsocks proxy with `plugin=obfs` and plugin-opts
carrying `mode` (plus optional `host` and `uri`, with `path` as the
fallback for `uri`), the surge exporter's output line carries
`obfs=<mode>`, carries `obfs-host=<host>` and `obfs-uri=<uri>` when those
options are given, and carries no `plugin`/`plugin-opts` key; any plugin
other than `obfs` fails the export. -/
theorem surge_shadowsocks_obfs_folding :
    (∀ (normalized m opts : JsonMap) (mode name server : Str) (port : Int),
      (m.map Prod.fst).Nodup →
      mget m "plugin".data = some (.str "obfs".data) →
      mget m "plugin-opts".data = some (.obj opts) →
      mget opts "mode".data = some (.str mode) →
      mget normalized "name".data = some (.str name) →
      mget m "server".data = some (.str server) →
      mget m "port".data = some (.int port) →
      ∃ m' parts,
        normalize_shadowsocks m = .ok m'
        ∧ mget m' "obfs".data = some (.str mode)
        ∧ mget m' "plugin".data = none
        ∧ mget m' "plugin-opts".data = none
        ∧ surge_export "shadowsocks".data normalized (.obj m)
            = .ok (.str (List.intercalate ", ".data parts))
        ∧ ("obfs=".data ++ mode) ∈ parts
        ∧ (∀ host, mget opts "host".data = some (.str host) →
            mget m' "obfs-host".data = some (.str host)
            ∧ ("obfs-host=".data ++ host) ∈ parts)
        ∧ (∀ uri, mget opts "uri".data = some (.str uri) →
            mget m' "obfs-uri".data = some (.str uri)
            ∧ ("obfs-uri=".data ++ uri) ∈ parts)
        ∧ (∀ path, mget opts "uri".data = none →
            mget opts "path".data = some (.str path) →
            mget m' "obfs-uri".data = some (.str path)
            ∧ ("obfs-uri=".data ++ path) ∈ parts)
        ∧ (∀ part ∈ parts.tail, ∃ k v, k ∈ m'.map Prod.fst
            ∧ k ≠ "plugin".data ∧ k ≠ "plugin-opts".data
            ∧ part = format_value k v))
    ∧ (∀ (m : JsonMap) (p : Str),
        mget m "plugin".data = some (.str p) → p ≠ "obfs".data →
        ∃ e, normalize_shadowsocks m = .error e) := by
  constructor
  · intro normalized m opts mode name server port hnd hplugin hopts hmode
      hname hserver hport
    have hnd2 := normalize_shadowsocks_rename_nodup m hnd
    have hplug2 : mget (normalize_shadowsocks_rename m) "plugin".data
        = some (.str "obfs".data) := by
      rw [normalize_shadowsocks_rename_preserves m (by decide) (by decide)
        (by decide)]
      exact hplugin
    have hopts2 : mget (normalize_shadowsocks_rename m) "plugin-opts".data
        = some (.obj opts) := by
      rw [normalize_shadowsocks_rename_preserves m (by decide) (by decide)
        (by decide)]
      exact hopts
    obtain ⟨m', hok, hobfs, hhost, huri, hpath, hplugNone, hpoptsNone,
      hnd', hpres⟩ :=
      normalize_shadowsocks_plugins_obfs hnd2 hplug2 hopts2 hmode
    have hnorm : normalize_shadowsocks m = .ok m' := hok
    have hserver' : mget m' "server".data = some (.str server) := by
      rw [hpres _ (by decide) (by decide) (by decide) (by decide) (by decide),
        normalize_shadowsocks_rename_preserves m (by decide) (by decide)
          (by decide)]
      exact hserver
    have hport' : mget m' "port".data = some (.int port) := by
      rw [hpres _ (by decide) (by decide) (by decide) (by decide) (by decide),
        normalize_shadowsocks_rename_preserves m (by decide) (by decide)
          (by decide)]
      exact hport
    have htype' : mget m' "type".data = some (.str "ss".data) := by
      rw [hpres _ (by decide) (by decide) (by decide) (by decide) (by decide)]
      exact normalize_shadowsocks_rename_type m
    have hexp : surge_export "shadowsocks".data normalized (.obj m)
        = render_common_line name server (intToStr port) m' := by
      simp only [surge_export]
      rw [if_neg (by decide), if_pos trivial]
      simp only [hnorm, hname, get_string, get_number, hserver', hport']
    have hline : render_common_line name server (intToStr port) m'
        = .ok (.str (List.intercalate ", ".data
            ((name ++ " = ".data ++ "ss".data ++ ", ".data ++ server
                ++ ", ".data ++ intToStr port) ::
              (List.mergeSort
                  ((m'.map Prod.fst).filter (fun k => decide (k ∉
                    ["name".data, "type".data, "server".data, "port".data])))
                  strLe).filterMap
                (fun key => (mget m' key).map (format_value key))))) := by
      simp only [render_common_line, get_string, htype']
    have hmemAux : ∀ (k s : Str), k ≠ "name".data → k ≠ "type".data →
        k ≠ "server".data → k ≠ "port".data →
        mget m' k = some (.str s) →
        (k ++ "=".data ++ s) ∈
          ((name ++ " = ".data ++ "ss".data ++ ", ".data ++ server
              ++ ", ".data ++ intToStr port) ::
            (List.mergeSort
                ((m'.map Prod.fst).filter (fun k => decide (k ∉
                  ["name".data, "type".data, "server".data, "port".data])))
                strLe).filterMap
              (fun key => (mget m' key).map (format_value key))) := by
      intro k s h1 h2 h3 h4 hk
      refine List.mem_cons_of_mem _ (List.mem_filterMap.mpr ⟨k, ?_, ?_⟩)
      · rw [List.mem_mergeSort]
        refine List.mem_filter.mpr ⟨mem_keys_of_mget hk, ?_⟩
        simp [h1, h2, h3, h4]
      · rw [hk]
        rfl
    refine ⟨m', _, hnorm, hobfs, hplugNone, hpoptsNone,
      hexp.trans hline, ?_, ?_, ?_, ?_, ?_⟩
    · exact hmemAux "obfs".data mode (by decide) (by decide) (by decide)
        (by decide) hobfs
    · intro host hh
      exact ⟨hhost host hh, hmemAux "obfs-host".data host (by decide)
        (by decide) (by decide) (by decide) (hhost host hh)⟩
    · intro uri hu
      exact ⟨huri uri hu, hmemAux "obfs-uri".data uri (by decide)
        (by decide) (by decide) (by decide) (huri uri hu)⟩
    · intro path hu hp
      exact ⟨hpath path hu hp, hmemAux "obfs-uri".data path (by decide)
        (by decide) (by decide) (by decide) (hpath path hu hp)⟩
    · intro part hpart
      obtain ⟨k, hkmem, hkeq⟩ := List.mem_filterMap.mp hpart
      obtain ⟨v, hv, hfv⟩ := Option.map_eq_some'.mp hkeq
      have hkeys : k ∈ m'.map Prod.fst := by
        rw [List.mem_mergeSort] at hkmem
        exact (List.mem_filter.mp hkmem).1
      refine ⟨k, v, hkeys, ?_, ?_, hfv.symm⟩
      · intro hk
        rw [hk] at hkeys
        exact (mget_eq_none_iff _ _).mp hplugNone hkeys
      · intro hk
        rw [hk] at hkeys
        exact (mget_eq_none_iff _ _).mp hpoptsNone hkeys
  · intro m p hp hne
    have hp2 : mget (normalize_shadowsocks_rename m) "plugin".data
        = some (.str p) := by
      rw [normalize_shadowsocks_rename_preserves m (by decide) (by decide)
        (by decide)]
      exact hp
    show ∃ e, normalize_shadowsocks_plugins (normalize_shadowsocks_rename m)
      = .error e
    cases hpo : parse_opts (mget (mremove (normalize_shadowsocks_rename m)
        "plugin".data) "plugin-opts".data) with
    | error e =>
        refine ⟨e, ?_⟩
        simp only [normalize_shadowsocks_plugins, hp2, hpo]
    | ok opts =>
        refine ⟨"surge exporter does not support this shadowsocks plugin", ?_⟩
        simp only [normalize_shadowsocks_plugins, hp2, hpo]
        rw [if_neg hne]

theorem surge_shadowsocks_obfs_folding_witness :
    ∃ m' parts,
      normalize_shadowsocks
          [("server".data, .str "s.example".data),
            ("port".data, .int 8388),
            ("cipher".data, .str "aes-128-gcm".data),
            ("password".data, .str "p".data),
            ("plugin".data, .str "obfs".data),
            ("plugin-opts".data,
              .obj [("mode".data, .str "tls".data),
                ("host".data, .str "h.example".data),
                ("path".data, .str "/p".data)]),
            ("type".data, .str "ss".data)]
        = .ok m'
      ∧ mget m' "obfs".data = some (.str "tls".data)
      ∧ mget m' "plugin".data = none
      ∧ mget m' "plugin-opts".data = none
      ∧ surge_export "shadowsocks".data [("name".data, .str "A".data)]
          (.obj [("server".data, .str "s.example".data),
            ("port".data, .int 8388),
            ("cipher".data, .str "aes-128-gcm".data),
            ("password".data, .str "p".data),
            ("plugin".data, .str "obfs".data),
            ("plugin-opts".data,
              .obj [("mode".data, .str "tls".data),
                ("host".data, .str "h.example".data),
                ("path".data, .str "/p".data)]),
            ("type".data, .str "ss".data)])
          = .ok (.str (List.intercalate ", ".data parts))
      ∧ ("obfs=".data ++ "tls".data) ∈ parts
      ∧ (∀ host, mget [("mode".data, JValue.str "tls".data),
            ("host".data, JValue.str "h.example".data),
            ("path".data, JValue.str "/p".data)] "host".data
              = some (.str host) →
          mget m' "obfs-host".data = some (.str host)
          ∧ ("obfs-host=".data ++ host) ∈ parts)
      ∧ (∀ uri, mget [("mode".data, JValue.str "tls".data),
            ("host".data, JValue.str "h.example".data),
            ("path".data, JValue.str "/p".data)] "uri".data
              = some (.str uri) →
          mget m' "obfs-uri".data = some (.str uri)
          ∧ ("obfs-uri=".data ++ uri) ∈ parts)
      ∧ (∀ path, mget [("mode".data, JValue.str "tls".data),
            ("host".data, JValue.str "h.example".data),
            ("path".data, JValue.str "/p".data)] "uri".data = none →
          mget [("mode".data, JValue.str "tls".data),
            ("host".data, JValue.str "h.example".data),
            ("path".data, JValue.str "/p".data)] "path".data
              = some (.str path) →
          mget m' "obfs-uri".data = some (.str path)
          ∧ ("obfs-uri=".data ++ path) ∈ parts)
      ∧ (∀ part ∈ parts.tail, ∃ k v, k ∈ m'.map Prod.fst
          ∧ k ≠ "plugin".data ∧ k ≠ "plugin-opts".data
          ∧ part = format_value k v) :=
  surge_shadowsocks_obfs_folding.1
    [("name".data, .str "A".data)]
    [("server".data, .str "s.example".data),
      ("port".data, .int 8388),
      ("cipher".data, .str "aes-128-gcm".data),
      ("password".data, .str "p".data),
      ("plugin".data, .str "obfs".data),
      ("plugin-opts".data,
        .obj [("mode".data, .str "tls".data),
          ("host".data, .str "h.example".data),
          ("path".data, .str "/p".data)]),
      ("type".data, .str "ss".data)]
    [("mode".data, .str "tls".data), ("host".data, .str "h.example".data),
      ("path".data, .str "/p".data)]
    "tls".data "A".data "s.example".data 8388
    (by decide) rfl rfl rfl rfl rfl rfl

theorem alookup_mem {α : Type} {m : List (Str × α)} {k : Str} {v : α}
    (h : alookup m k = some v) : (k, v) ∈ m := by
  induction m with
  | nil => simp [alookup] at h
  | cons kv rest ih =>
      obtain ⟨k', v'⟩ := kv
      rw [alookup] at h
      by_cases hk : k' = k
      · rw [if_pos hk] at h
        obtain rfl := hk
        obtain rfl : v' = v := by simpa using h
        exact List.mem_cons_self _ _
      · rw [if_neg hk] at h
        exact List.mem_cons_of_mem _ (ih h)

theorem alookup_mem_keys {α : Type} {m : List (Str × α)} {k : Str} {v : α}
    (h : alookup m k = some v) : k ∈ m.map Prod.fst :=
  List.mem_map.mpr ⟨(k, v), alookup_mem h, rfl⟩

theorem mem_alinsert {α : Type} {m : List (Str × α)} {k : Str} {v : α}
    {x : Str × α} (h : x ∈ alinsert m k v) : x ∈ m ∨ x = (k, v) := by
  induction m with
  | nil => simpa [alinsert] using h
  | cons kv rest ih =>
      obtain ⟨k', v'⟩ := kv
      rw [alinsert] at h
      by_cases hk : k' = k
      · rw [if_pos hk] at h
        rcases List.mem_cons.mp h with h1 | h1
        · exact Or.inr h1
        · exact Or.inl (List.mem_cons_of_mem _ h1)
      · rw [if_neg hk] at h
        rcases List.mem_cons.mp h with h1 | h1
        · exact Or.inl (by simp [h1])
        · rcases ih h1 with h2 | h2
          · exact Or.inl (List.mem_cons_of_mem _ h2)
          · exact Or.inr h2

theorem qresolve_of_p {f : Nat} (hP : PResolve f) : QResolve f := by
  intro incs
  induction incs with
  | nil =>
      intro raw resolving cache acc out h hinv
      obtain rfl : (acc, resolving, cache) = out := by
        simpa [resolve_includes] using h
      exact ⟨by simp, hinv⟩
  | cons inc rest ih =>
      intro raw resolving cache acc out h hinv
      rw [resolve_includes] at h
      cases hr : resolve_protocol f inc raw resolving cache with
      | error e => rw [hr] at h; cases h
      | ok trip =>
          obtain ⟨parent, resolving', cache'⟩ := trip
          rw [hr] at h
          obtain ⟨hgood, hsafe, hinv'⟩ := hP inc raw resolving cache _ hr hinv
          obtain ⟨hsafes, hinvOut⟩ := ih raw resolving' cache' _ out h hinv'
          refine ⟨?_, hinvOut⟩
          intro i hi
          rcases List.mem_cons.mp hi with rfl | hi'
          · exact hsafe
          · exact hsafes i hi'

theorem presolve_succ {f : Nat} (hQ : QResolve f) : PResolve (f + 1) := by
  intro name raw resolving cache out h hinv
  rw [resolve_protocol] at h
  cases hc : alookup cache name with
  | some resolved =>
      rw [hc] at h
      obtain rfl : (resolved, resolving, cache) = out := by simpa using h
      obtain ⟨hg, hs⟩ := hinv (name, resolved) (alookup_mem hc)
      exact ⟨hg, hs, hinv⟩
  | none =>
      simp only [hc] at h
      by_cases hres : name ∈ resolving
      · rw [if_pos hres] at h; cases h
      · rw [if_neg hres] at h
        cases hraw : alookup raw name with
        | none => simp only [hraw] at h; cases h
        | some schema =>
            simp only [hraw] at h
            cases hincs : resolve_includes f schema.includes raw
                (resolving ++ [name]) cache
                ⟨schema.protocol, [], [], []⟩ with
            | error e => simp only [hincs] at h; cases h
            | ok trip =>
                obtain ⟨c1, r2, c2⟩ := trip
                simp only [hincs] at h
                obtain ⟨hsafes, hinv2⟩ :=
                  hQ schema.includes raw (resolving ++ [name]) cache _ _
                    hincs hinv
                cases hval : ({ c1.absorb schema true with
                    includes := [] } : ProtocolSchema).validate_templates with
                | error e =>
                    simp only [hval] at h; cases h
                | ok u =>
                    simp only [hval] at h
                    obtain rfl :
                        (({ c1.absorb schema true with
                            includes := [] } : ProtocolSchema),
                          r2.filter (fun x => decide (x ≠ name)),
                          alinsert c2 name
                            ({ c1.absorb schema true with
                              includes := [] } : ProtocolSchema)) = out := by
                      simpa using h
                    have hedge : ∀ b, Includes raw name b →
                        b ∈ schema.includes := by
                      rintro b ⟨s, hs, hb⟩
                      rw [hraw] at hs
                      obtain rfl : schema = s := by simpa using hs
                      exact hb
                    have hsafeName : Safe raw name := by
                      intro x hx
                      rcases Relation.ReflTransGen.cases_head hx with
                        heq | ⟨c, hnc, hcx⟩
                      · subst heq
                        intro hTG
                        obtain ⟨c, hnc, hcn⟩ :=
                          Relation.TransGen.head'_iff.mp hTG
                        exact hsafes c (hedge c hnc) _ hcn hTG
                      · exact hsafes c (hedge c hnc) x hcx
                    refine ⟨⟨rfl, hval⟩, hsafeName, ?_⟩
                    intro e he
                    rcases mem_alinsert he with he' | he'
                    · exact hinv2 e he'
                    · rw [he']
                      exact ⟨⟨rfl, hval⟩, hsafeName⟩

theorem presolve_all : ∀ f, PResolve f := by
  intro f
  induction f with
  | zero =>
      intro name raw resolving cache out h hinv
      simp [resolve_protocol] at h
  | succ f ih => exact presolve_succ (qresolve_of_p ih)

theorem resolveAll_inv (f : Nat) (raw : List (Str × ProtocolSchema)) :
    ∀ (ns resolving : List Str) (cache m : List (Str × ProtocolSchema)),
      resolveAll f raw ns resolving cache = .ok m →
      CacheInv raw cache →
      (∀ n ∈ ns, Safe raw n) ∧ CacheInv raw m := by
  intro ns
  induction ns with
  | nil =>
      intro resolving cache m h hinv
      obtain rfl : cache = m := by simpa [resolveAll] using h
      exact ⟨by simp, hinv⟩
  | cons n ns ih =>
      intro resolving cache m h hinv
      rw [resolveAll] at h
      cases hr : resolve_protocol f n raw resolving cache with
      | error e => rw [hr] at h; cases h
      | ok trip =>
          obtain ⟨s, resolving', cache'⟩ := trip
          rw [hr] at h
          obtain ⟨hgood, hsafe, hinv'⟩ := presolve_all f n raw resolving
            cache _ hr hinv
          obtain ⟨hsafes, hinvm⟩ := ih resolving' cache' m h hinv'
          refine ⟨?_, hinvm⟩
          intro x hx
          rcases List.mem_cons.mp hx with rfl | hx'
          · exact hsafe
          · exact hsafes x hx'

/-- C2: if schema resolution succeeds, the raw `includes` relation has no
cycle (so any cycle forces an error), and every schema in the resolved
registry has empty `includes` and validated templates (every `FieldRef`
names a declared field, with any default matching its type). -/
theorem schema_resolution_acyclic_and_validated
    (raw m : List (Str × ProtocolSchema))
    (h : resolve_protocols raw = .ok m) :
    (∀ n, ¬ Relation.TransGen (Includes raw) n n)
    ∧ ∀ e ∈ m, e.2.includes = [] ∧ e.2.validate_templates = .ok () := by
  obtain ⟨hsafes, hinv⟩ := resolveAll_inv (raw.length + 1) raw
    (raw.map Prod.fst) [] [] m h (by intro e he; simp at he)
  constructor
  · intro n hTG
    obtain ⟨c, hnc, _⟩ := Relation.TransGen.head'_iff.mp hTG
    obtain ⟨s, hs, _⟩ := hnc
    exact hsafes n (alookup_mem_keys hs) n Relation.ReflTransGen.refl hTG
  · intro e he
    exact (hinv e he).1

theorem schema_resolution_acyclic_and_validated_witness :
    (∀ n, ¬ Relation.TransGen
      (Includes [("ss".data,
        ⟨"ss".data, [],
          [("server".data, ⟨.string⟩)],
          [("clash".data,
            ⟨[("server".data, .field ⟨"server".data, false, none⟩)],
              none, none⟩)]⟩)]) n n)
    ∧ ∀ e ∈ ([("ss".data,
        (⟨"ss".data, [],
          [("server".data, ⟨.string⟩)],
          [("clash".data,
            ⟨[("server".data, .field ⟨"server".data, false, none⟩)],
              none, none⟩)]⟩ : ProtocolSchema))] :
          List (Str × ProtocolSchema)),
        e.2.includes = [] ∧ e.2.validate_templates = .ok () :=
  schema_resolution_acyclic_and_validated
    [("ss".data,
      ⟨"ss".data, [],
        [("server".data, ⟨.string⟩)],
        [("clash".data,
          ⟨[("server".data, .field ⟨"server".data, false, none⟩)],
            none, none⟩)]⟩)]
    [("ss".data,
      ⟨"ss".data, [],
        [("server".data, ⟨.string⟩)],
        [("clash".data,
          ⟨[("server".data, .field ⟨"server".data, false, none⟩)],
            none, none⟩)]⟩)]
    (by
      simp +decide [resolve_protocols, resolveAll, resolve_protocol,
        resolve_includes, alookup, alinsert, ProtocolSchema.absorb,
        TargetSchema.absorb, ProtocolSchema.validate_templates,
        validate_targets, validate_template_map, validate_template])

/-- C5: the URL is validated before any cache read or network request: a
missing host yields the invalid-URL (400) error with no I/O, an empty
configured allowlist denies every URL with a dedicated forbidden (403)
error and no I/O, any other validation failure also performs no I/O, and
validation succeeds exactly when the lower-cased host literally equals one
of the configured (lower-cased) allowed domains. -/
theorem validate_url_before_any_io {T : Type} (allowed_domain : List Str)
    (cache_enabled : Bool) (cacheResult : Except String (Option Str))
    (fetchResult : Str → Option Str) (url : Url) (user_agents : List Str)
    (no_cache : Bool) (parse : Str → Except String T) :
    (url.host = none →
      (Security.new allowed_domain).validate_url url
          = .error ⟨400, "url missing host"⟩
        ∧ Network.get_or_fetch_with ⟨cache_enabled, Security.new allowed_domain⟩
            cacheResult fetchResult url user_agents no_cache parse
          = (.error ⟨400, "url missing host"⟩, []))
    ∧ (∀ h, url.host = some h → allowed_domain = [] →
      (Security.new allowed_domain).validate_url url
          = .error ⟨403, "allowed-domain list is empty"⟩
        ∧ Network.get_or_fetch_with ⟨cache_enabled, Security.new allowed_domain⟩
            cacheResult fetchResult url user_agents no_cache parse
          = (.error ⟨403, "allowed-domain list is empty"⟩, []))
    ∧ ((Security.new allowed_domain).validate_url url = .ok () ↔
        ∃ h, url.host = some h ∧ allowed_domain ≠ []
          ∧ lowerAscii h ∈ allowed_domain.map lowerAscii)
    ∧ (∀ e, (Security.new allowed_domain).validate_url url = .error e →
        Network.get_or_fetch_with ⟨cache_enabled, Security.new allowed_domain⟩
            cacheResult fetchResult url user_agents no_cache parse
          = (.error e, [])) := by
  refine ⟨?_, ?_, ?_, ?_⟩
  · intro hh
    have hv : (Security.new allowed_domain).validate_url url
        = .error ⟨400, "url missing host"⟩ := by
      rw [Security.validate_url, hh]
    refine ⟨hv, ?_⟩
    rw [Network.get_or_fetch_with, hv]
  · intro h hh hemp
    have hv : (Security.new allowed_domain).validate_url url
        = .error ⟨403, "allowed-domain list is empty"⟩ := by
      simp only [Security.validate_url, hh]
      rw [if_pos (by simp [Security.new, hemp])]
    refine ⟨hv, ?_⟩
    rw [Network.get_or_fetch_with, hv]
  · cases hh : url.host with
    | none =>
        simp only [Security.validate_url, hh]
        simp
    | some host =>
        simp only [Security.validate_url, hh]
        by_cases hemp : (Security.new allowed_domain).allowed_domains.isEmpty
        · rw [if_pos hemp]
          have hnil : allowed_domain = [] := by
            simpa [Security.new] using hemp
          constructor
          · intro h; exact absurd h (by simp)
          · rintro ⟨h', _, hne, _⟩; exact absurd hnil hne
        · rw [if_neg hemp]
          have hne : allowed_domain ≠ [] := by
            intro hnil
            exact hemp (by simp [Security.new, hnil])
          by_cases hmem : (Security.new allowed_domain).allowed_domains.any
              (fun domain => domain == lowerAscii host) = true
          · rw [if_pos hmem]
            simp only [true_iff]
            refine ⟨host, rfl, hne, ?_⟩
            obtain ⟨d, hd, hdm⟩ := List.any_eq_true.mp hmem
            obtain rfl : d = lowerAscii host := by simpa using hdm
            simpa [Security.new] using hd
          · rw [if_neg hmem]
            constructor
            · intro h; exact absurd h (by simp)
            · rintro ⟨h', hh', _, hmem'⟩
              obtain rfl : host = h' := by simpa using hh'
              exact absurd (List.any_eq_true.mpr
                ⟨lowerAscii host, by simpa [Security.new] using hmem',
                  by simp⟩) hmem
  · intro e hv
    rw [Network.get_or_fetch_with, hv]

theorem validate_url_before_any_io_witness :
    @Network.get_or_fetch_with Unit
        ⟨true, Security.new ["ok.example".data]⟩
        (.ok none) (fun _ => none) ⟨none⟩ [] false (fun _ => .ok ())
      = (.error ⟨400, "url missing host"⟩, []) :=
  ((validate_url_before_any_io ["ok.example".data] true (.ok none)
    (fun _ => none) ⟨none⟩ [] false (fun _ => .ok ())).1 rfl).2

theorem fetchProxiesLoop_trace_prefix (response : Str → Option Str)
    (parseProfile : Str → Except String (List Proxy)) :
    ∀ (uas : List Str) (last : Option String),
      (fetchProxiesLoop response parseProfile uas last).2 <+: uas := by
  intro uas
  induction uas with
  | nil => intro last; simp [fetchProxiesLoop]
  | cons ua rest ih =>
      intro last
      cases hr : response ua with
      | none =>
          simp only [fetchProxiesLoop, hr]
          exact List.cons_prefix_cons.mpr ⟨rfl, ih _⟩
      | some text =>
          cases hp : parseProfile text with
          | error e =>
              simp only [fetchProxiesLoop, hr, hp]
              exact List.cons_prefix_cons.mpr ⟨rfl, ih _⟩
          | ok proxies =>
              cases proxies with
              | nil =>
                  simp only [fetchProxiesLoop, hr, hp, List.isEmpty_nil,
                    if_true]
                  exact List.cons_prefix_cons.mpr ⟨rfl, ih _⟩
              | cons p ps =>
                  simp only [fetchProxiesLoop, hr, hp, List.isEmpty_cons]
                  exact List.cons_prefix_cons.mpr ⟨rfl, List.nil_prefix⟩

theorem fetchProxiesLoop_exhaust (response : Str → Option Str)
    (parseProfile : Str → Except String (List Proxy)) :
    ∀ (uas : List Str) (last : Option String),
      (∀ ua ∈ uas,
        response ua = none
        ∨ ∃ text, response ua = some text
            ∧ (parseProfile text = .ok []
              ∨ ∃ e, parseProfile text = .error e)) →
      (∃ msg, (fetchProxiesLoop response parseProfile uas last).1
          = .error (502, msg))
        ∧ (fetchProxiesLoop response parseProfile uas last).2 = uas := by
  intro uas
  induction uas with
  | nil =>
      intro last _
      exact ⟨⟨_, rfl⟩, rfl⟩
  | cons ua rest ih =>
      intro last hall
      have htail := fun (u : Str) (hu : u ∈ rest) =>
        hall u (List.mem_cons_of_mem _ hu)
      rcases hall ua (List.mem_cons_self _ _) with hr | ⟨text, hr, hp⟩
      · obtain ⟨⟨msg, h1⟩, h2⟩ := ih (some "request failed") htail
        simp only [fetchProxiesLoop, hr]
        exact ⟨⟨msg, h1⟩, by simp [h2]⟩
      · rcases hp with hp | ⟨e, hp⟩
        · obtain ⟨⟨msg, h1⟩, h2⟩ := ih (some "no proxies found") htail
          simp only [fetchProxiesLoop, hr, hp, List.isEmpty_nil, if_true]
          exact ⟨⟨msg, h1⟩, by simp [h2]⟩
        · obtain ⟨⟨msg, h1⟩, h2⟩ := ih (some "failed to parse response") htail
          simp only [fetchProxiesLoop, hr, hp]
          exact ⟨⟨msg, h1⟩, by simp [h2]⟩

theorem fetchProxiesLoop_ok_nonempty (response : Str → Option Str)
    (parseProfile : Str → Except String (List Proxy)) :
    ∀ (uas : List Str) (last : Option String) (ps : List Proxy),
      (fetchProxiesLoop response parseProfile uas last).1 = .ok ps →
      ps ≠ [] := by
  intro uas
  induction uas with
  | nil => intro last ps h; simp [fetchProxiesLoop] at h
  | cons ua rest ih =>
      intro last ps h
      cases hr : response ua with
      | none =>
          simp only [fetchProxiesLoop, hr] at h
          exact ih _ ps h
      | some text =>
          cases hp : parseProfile text with
          | error e =>
              simp only [fetchProxiesLoop, hr, hp] at h
              exact ih _ ps h
          | ok proxies =>
              cases proxies with
              | nil =>
                  simp only [fetchProxiesLoop, hr, hp, List.isEmpty_nil,
                    if_true] at h
                  exact ih _ ps h
              | cons p pps =>
                  simp only [fetchProxiesLoop, hr, hp, List.isEmpty_cons] at h
                  obtain rfl : p :: pps = ps := by simpa using h
                  simp

/-- C4 counterexample: the subscription user-agent list is not
`["Clash/v1.18.0", "mihomo/1.19.17"]` as the claim states. -/
theorem subscription_user_agents_ne_claimed :
    SUBSCRIPTION_USER_AGENTS
      ≠ ["Clash/v1.18.0".data, "mihomo/1.19.17".data] := by
  decide

/-- C4 (amended): the subscription fetch tries exactly the user agents
`["Clash/v1.18.0", "mihomo/1.18.3"]` in that order; a response that
parses to zero proxies counts as a failure and the next user agent is
tried; exhausting all user agents yields a 502 error; a success always
carries at least one proxy. -/
theorem fetch_proxies_user_agent_rotation (response : Str → Option Str)
    (parseProfile : Str → Except String (List Proxy)) :
    SUBSCRIPTION_USER_AGENTS = ["Clash/v1.18.0".data, "mihomo/1.18.3".data]
    ∧ (fetch_proxies_from_url response parseProfile).2
        <+: SUBSCRIPTION_USER_AGENTS
    ∧ ((∀ ua ∈ SUBSCRIPTION_USER_AGENTS,
          response ua = none
          ∨ ∃ text, response ua = some text
              ∧ (parseProfile text = .ok []
                ∨ ∃ e, parseProfile text = .error e)) →
        (∃ msg, (fetch_proxies_from_url response parseProfile).1
            = .error (502, msg))
          ∧ (fetch_proxies_from_url response parseProfile).2
              = SUBSCRIPTION_USER_AGENTS)
    ∧ (∀ ps, (fetch_proxies_from_url response parseProfile).1 = .ok ps →
        ps ≠ []) := by
  refine ⟨rfl, ?_, ?_, ?_⟩
  · exact fetchProxiesLoop_trace_prefix response parseProfile _ none
  · intro hall
    exact fetchProxiesLoop_exhaust response parseProfile _ none hall
  · intro ps h
    exact fetchProxiesLoop_ok_nonempty response parseProfile _ none ps h

theorem fetch_proxies_user_agent_rotation_witness :
    ∃ msg, (fetch_proxies_from_url (fun _ => none)
        (fun _ => .error "unused")).1 = .error (502, msg) :=
  ((fetch_proxies_user_agent_rotation (fun _ => none)
    (fun _ => .error "unused")).2.2.1
    (fun ua _ => Or.inl rfl)).1

theorem find?_append_none {p : GroupSpec → Bool} {l₁ : List GroupSpec}
    (h : ∀ x ∈ l₁, p x = false) (l₂ : List GroupSpec) :
    (l₁ ++ l₂).find? p = l₂.find? p := by
  induction l₁ with
  | nil => rfl
  | cons x xs ih =>
      rw [List.cons_append, List.find?, h x (List.mem_cons_self _ _)]
      exact ih (fun y hy => h y (List.mem_cons_of_mem _ hy))

theorem build_group_ok_name {eng : RegexEngine} {s : GroupSpec}
    {ag pn : List Str} {g : ProxyGroup}
    (h : build_group eng s ag pn = .ok g) : g.name = s.name := by
  rw [build_group] at h
  cases hl : buildGroupLoop eng ag pn s.rule [] [] with
  | error e => rw [hl] at h; simp at h
  | ok ps =>
      rw [hl] at h
      obtain rfl : _ = g := by simpa using h
      rfl

theorem dedupKeepFirst_nodup :
    ∀ (ns seen : List Str),
      (dedupKeepFirst seen ns).Nodup
        ∧ ∀ x ∈ dedupKeepFirst seen ns, x ∉ seen := by
  intro ns
  induction ns with
  | nil => intro seen; exact ⟨List.nodup_nil, by simp [dedupKeepFirst]⟩
  | cons n ns ih =>
      intro seen
      rw [dedupKeepFirst]
      by_cases h : n ∈ seen
      · rw [if_pos h]; exact ih seen
      · rw [if_neg h]
        obtain ⟨hnd, havoid⟩ := ih (seen ++ [n])
        refine ⟨List.nodup_cons.mpr ⟨fun hmem => havoid n hmem (by simp), hnd⟩,
          ?_⟩
        intro x hx
        rcases List.mem_cons.mp hx with rfl | hx'
        · exact h
        · intro hxseen
          exact havoid x hx' (by simp [hxseen])

theorem buildGroupsLoop_names (eng : RegexEngine) (ag pn : List Str) :
    ∀ (specs : List GroupSpec) (groups : List ProxyGroup)
      (resolved : List Str) (gs : List ProxyGroup),
      resolved = groups.map ProxyGroup.name →
      buildGroupsLoop eng ag pn specs groups resolved = .ok gs →
      gs.map ProxyGroup.name
        = groups.map ProxyGroup.name
            ++ dedupKeepFirst resolved (specs.map GroupSpec.name) := by
  intro specs
  induction specs with
  | nil =>
      intro groups resolved gs hinv h
      obtain rfl : groups = gs := by simpa [buildGroupsLoop] using h
      simp [dedupKeepFirst]
  | cons spec rest ih =>
      intro groups resolved gs hinv h
      rw [buildGroupsLoop] at h
      rw [List.map_cons, dedupKeepFirst]
      by_cases hres : spec.name ∈ resolved
      · rw [if_pos hres] at h
        rw [if_pos hres]
        exact ih groups resolved gs hinv h
      · rw [if_neg hres] at h
        rw [if_neg hres]
        cases hb : build_group eng spec ag pn with
        | error e => rw [hb] at h; simp at h
        | ok g =>
            rw [hb] at h
            have hname := build_group_ok_name hb
            have hinv' : resolved ++ [g.name] = (groups ++ [g]).map
                ProxyGroup.name := by
              simp [hinv]
            have hrec := ih (groups ++ [g]) (resolved ++ [g.name]) gs hinv' h
            rw [hrec]
            simp [hname, List.append_assoc]

theorem buildGroupsLoop_first (eng : RegexEngine) (ag pn : List Str)
    (specsAll : List GroupSpec) :
    ∀ (rest pre : List GroupSpec) (groups : List ProxyGroup)
      (resolved : List Str) (gs : List ProxyGroup),
      specsAll = pre ++ rest →
      (∀ nm, nm ∈ resolved ↔ ∃ s ∈ pre, s.name = nm) →
      (∀ g ∈ groups, ∃ s,
        specsAll.find? (fun s => s.name == g.name) = some s
          ∧ build_group eng s ag pn = .ok g) →
      buildGroupsLoop eng ag pn rest groups resolved = .ok gs →
      ∀ g ∈ gs, ∃ s,
        specsAll.find? (fun s => s.name == g.name) = some s
          ∧ build_group eng s ag pn = .ok g := by
  intro rest
  induction rest with
  | nil =>
      intro pre groups resolved gs _ _ hgr h
      obtain rfl : groups = gs := by simpa [buildGroupsLoop] using h
      exact hgr
  | cons spec rest ih =>
      intro pre groups resolved gs hsplit hres hgr h
      rw [buildGroupsLoop] at h
      have hsplit' : specsAll = (pre ++ [spec]) ++ rest := by
        rw [hsplit, List.append_assoc]; rfl
      by_cases hmem : spec.name ∈ resolved
      · rw [if_pos hmem] at h
        refine ih (pre ++ [spec]) groups resolved gs hsplit' ?_ hgr h
        intro nm
        rw [hres nm]
        constructor
        · rintro ⟨s, hs, rfl⟩
          exact ⟨s, by simp [hs], rfl⟩
        · rintro ⟨s, hs, rfl⟩
          rcases List.mem_append.mp hs with hs' | hs'
          · exact ⟨s, hs', rfl⟩
          · obtain rfl : s = spec := by simpa using hs'
            exact (hres s.name).mp hmem
      · rw [if_neg hmem] at h
        cases hb : build_group eng spec ag pn with
        | error e => rw [hb] at h; simp at h
        | ok g =>
            rw [hb] at h
            have hname : g.name = spec.name := build_group_ok_name hb
            have hfind : specsAll.find? (fun s => s.name == spec.name)
                = some spec := by
              rw [hsplit]
              have hpre : ∀ x ∈ pre, (fun s => s.name == spec.name) x = false := by
                intro s hs
                simp only [beq_eq_false_iff_ne, ne_eq]
                intro heq
                exact hmem ((hres spec.name).mpr ⟨s, hs, heq⟩)
              rw [find?_append_none hpre]
              exact List.find?_cons_of_pos _ (by simp)
            have h' : buildGroupsLoop eng ag pn rest (groups ++ [g])
                (resolved ++ [g.name]) = .ok gs := h
            rw [hname] at h'
            refine ih (pre ++ [spec]) (groups ++ [g]) (resolved ++ [spec.name])
              gs hsplit' ?_ ?_ h'
            · intro nm
              constructor
              · intro hnm
                rcases List.mem_append.mp hnm with hnm' | hnm'
                · obtain ⟨s, hs, rfl⟩ := (hres nm).mp hnm'
                  exact ⟨s, by simp [hs], rfl⟩
                · obtain rfl : nm = spec.name := by simpa using hnm'
                  exact ⟨spec, by simp, rfl⟩
              · rintro ⟨s, hs, rfl⟩
                rcases List.mem_append.mp hs with hs' | hs'
                · exact List.mem_append.mpr (.inl ((hres s.name).mpr
                    ⟨s, hs', rfl⟩))
                · obtain rfl : s = spec := by simpa using hs'
                  simp
            · intro g' hg'
              rcases List.mem_append.mp hg' with hg'' | hg''
              · exact hgr g' hg''
              · obtain rfl : g' = g := by simpa using hg''
                exact ⟨spec, by rw [hname]; exact hfind, hb⟩

/-- C9: `build_groups` resolves only the first spec with each name and
silently skips later duplicates, so the returned list never contains two
groups with the same name. -/
theorem build_groups_first_spec_wins (eng : RegexEngine)
    (specs : List GroupSpec) (proxies : List Proxy)
    (gs : List ProxyGroup)
    (h : build_groups eng specs proxies = .ok gs) :
    (gs.map ProxyGroup.name).Nodup
    ∧ gs.map ProxyGroup.name = dedupKeepFirst [] (specs.map GroupSpec.name)
    ∧ ∀ g ∈ gs, ∃ s, specs.find? (fun s => s.name == g.name) = some s
        ∧ build_group eng s
            (specs.map GroupSpec.name ++ ["DIRECT".data, "REJECT".data])
            (proxies.map Proxy.name) = .ok g := by
  rw [build_groups] at h
  have hnames := buildGroupsLoop_names eng _ _ specs [] [] gs rfl h
  simp only [List.map_nil, List.nil_append] at hnames
  refine ⟨?_, hnames, ?_⟩
  · rw [hnames]
    exact (dedupKeepFirst_nodup _ _).1
  · exact buildGroupsLoop_first eng _ _ specs specs [] [] [] gs rfl
      (by simp) (by simp) h

theorem build_groups_first_spec_wins_witness :
    ((([ProxyGroup.mk "A".data "select".data [] none none]).map
        ProxyGroup.name).Nodup : Prop) :=
  (build_groups_first_spec_wins
    ⟨fun _ => .error "unused"⟩
    [⟨"A".data, "select".data, [], none, none⟩,
      ⟨"A".data, "url-test".data, [], none, none⟩]
    [] [ProxyGroup.mk "A".data "select".data [] none none] rfl).1

theorem ip_domain_disjoint (r : Rule) :
    ¬(is_ip_rule r = true ∧ is_domain_rule r = true) := by
  rintro ⟨hip, hdom⟩
  rw [is_ip_rule, List.any_eq_true] at hip
  rw [is_domain_rule, List.any_eq_true] at hdom
  obtain ⟨t1, ht1, he1⟩ := hip
  obtain ⟨t2, ht2, he2⟩ := hdom
  rw [eqIgnoreAsciiCase, beq_iff_eq] at he1 he2
  have hd : ∀ t1 ∈ IP_RULE_TYPES, ∀ t2 ∈ DOMAIN_RULE_TYPES,
      lowerAscii t1 ≠ lowerAscii t2 := by decide
  exact hd t1 ht1 t2 ht2 (he1.trans he2.symm)

theorem reorderGo_get?_other :
    ∀ (rs d i : List Rule) (n : ℕ) (r : Rule),
      rs.get? n = some r → is_ip_rule r = false → is_domain_rule r = false →
      (reorderGo rs d i).get? n = some r := by
  intro rs
  induction rs with
  | nil => intro d i n r h; simp at h
  | cons hd tl ih =>
      intro d i n r h hip hdom
      cases n with
      | zero =>
          obtain rfl : hd = r := by simpa using h
          simp only [reorderGo]
          rw [if_neg (by simp [hip, hdom])]
          rfl
      | succ n =>
          have h' : tl.get? n = some r := by simpa using h
          simp only [reorderGo]
          by_cases hsp : (is_ip_rule hd || is_domain_rule hd) = true
          · rw [if_pos hsp]
            cases d with
            | cons x d' => simpa using ih d' i n r h' hip hdom
            | nil =>
                cases i with
                | cons y i' => simpa using ih [] i' n r h' hip hdom
                | nil => simpa using ih [] [] n r h' hip hdom
          · rw [if_neg hsp]
            simpa using ih d i n r h' hip hdom

theorem reorderGo_filter_special :
    ∀ (rs d i : List Rule),
      (∀ x ∈ d, is_domain_rule x = true) → (∀ x ∈ i, is_ip_rule x = true) →
      rs.countP (fun r => is_ip_rule r || is_domain_rule r)
        = d.length + i.length →
      (reorderGo rs d i).filter (fun r => is_ip_rule r || is_domain_rule r)
        = d ++ i := by
  intro rs
  induction rs with
  | nil =>
      intro d i _ _ hcount
      rw [List.countP_nil] at hcount
      obtain rfl : d = [] := List.length_eq_zero.mp (by omega)
      obtain rfl : i = [] := List.length_eq_zero.mp (by omega)
      rfl
  | cons r rs ih =>
      intro d i hdm him hcount
      rw [List.countP_cons] at hcount
      by_cases hsp : (is_ip_rule r || is_domain_rule r) = true
      · rw [hsp] at hcount
        simp only [if_pos rfl] at hcount
        simp only [reorderGo]
        rw [if_pos hsp]
        cases d with
        | cons x d' =>
            have hx : (is_ip_rule x || is_domain_rule x) = true := by
              simp [hdm x (List.mem_cons_self _ _)]
            rw [List.filter_cons, if_pos hx,
              ih d' i (fun a ha => hdm a (List.mem_cons_of_mem _ ha)) him
                (by simp at hcount ⊢; omega)]
            rfl
        | nil =>
            cases i with
            | cons y i' =>
                have hy : (is_ip_rule y || is_domain_rule y) = true := by
                  simp [him y (List.mem_cons_self _ _)]
                rw [List.filter_cons, if_pos hy,
                  ih [] i' (by simp) (fun a ha => him a (List.mem_cons_of_mem _ ha))
                    (by simp at hcount ⊢; omega)]
                rfl
            | nil => simp at hcount
      · have hsp' : (is_ip_rule r || is_domain_rule r) = false :=
          Bool.not_eq_true _ ▸ (by simpa using hsp)
        simp [hsp'] at hcount
        simp only [reorderGo]
        rw [if_neg (by simp [hsp']), List.filter_cons,
          if_neg (by simp [hsp'])]
        exact ih d i hdm him (by omega)

theorem reorderGo_self :
    ∀ (l d i : List Rule),
      l.filter (fun r => is_ip_rule r || is_domain_rule r) = d ++ i →
      (∀ x ∈ d, is_domain_rule x = true) → (∀ x ∈ i, is_ip_rule x = true) →
      reorderGo l d i = l := by
  intro l
  induction l with
  | nil => intro d i _ _ _; rfl
  | cons r rs ih =>
      intro d i hfil hdm him
      by_cases hsp : (is_ip_rule r || is_domain_rule r) = true
      · rw [List.filter_cons, if_pos hsp] at hfil
        simp only [reorderGo]
        rw [if_pos hsp]
        cases d with
        | cons x d' =>
            obtain ⟨rfl, hrest⟩ : x = r ∧ rs.filter _ = d' ++ i := by
              rw [List.cons_append] at hfil
              exact ⟨(List.cons.injEq _ _ _ _ ▸ hfil).1.symm,
                (List.cons.injEq _ _ _ _ ▸ hfil).2⟩
            show x :: reorderGo rs d' i = x :: rs
            rw [ih d' i hrest (fun a ha => hdm a (List.mem_cons_of_mem _ ha)) him]
        | nil =>
            rw [List.nil_append] at hfil
            cases i with
            | nil => simp at hfil
            | cons y i' =>
                obtain ⟨rfl, hrest⟩ : y = r ∧ rs.filter _ = i' := by
                  exact ⟨(List.cons.injEq _ _ _ _ ▸ hfil).1.symm,
                    (List.cons.injEq _ _ _ _ ▸ hfil).2⟩
                show y :: reorderGo rs [] i' = y :: rs
                rw [ih [] i' (by simpa using hrest) (by simp)
                  (fun a ha => him a (List.mem_cons_of_mem _ ha))]
      · rw [List.filter_cons, if_neg hsp] at hfil
        simp only [reorderGo]
        rw [if_neg hsp, ih d i hfil hdm him]

theorem filter_imp_filter {p q : Rule → Bool}
    (h : ∀ r, p r = true → q r = true) (l : List Rule) :
    (l.filter q).filter p = l.filter p := by
  induction l with
  | nil => rfl
  | cons r rs ih =>
      by_cases hp : p r = true
      · rw [List.filter_cons, if_pos (h r hp), List.filter_cons, if_pos hp,
          List.filter_cons, if_pos hp, ih]
      · by_cases hq : q r = true
        · rw [List.filter_cons, if_pos hq, List.filter_cons, if_neg hp,
            List.filter_cons, if_neg hp, ih]
        · rw [List.filter_cons, if_neg hq, List.filter_cons, if_neg hp, ih]

theorem countP_special (xs : List Rule) :
    xs.countP (fun r => is_ip_rule r || is_domain_rule r)
      = (xs.filter is_domain_rule).length + (xs.filter is_ip_rule).length := by
  induction xs with
  | nil => rfl
  | cons r rs ih =>
      rw [List.countP_cons, List.filter_cons, List.filter_cons]
      by_cases hip : is_ip_rule r = true
      · have hdom : is_domain_rule r = false := by
          by_contra hd
          exact ip_domain_disjoint r ⟨hip, by simpa using hd⟩
        simp [hip, hdom, ih]
        omega
      · have hip' : is_ip_rule r = false := by simpa using hip
        by_cases hdom : is_domain_rule r = true
        · simp [hip', hdom, ih]
          omega
        · have hdom' : is_domain_rule r = false := by simpa using hdom
          simp [hip', hdom', ih]

/-- C8: `reorder_rules_domain_before_ip` is idempotent, and every rule that
is neither an ip-family nor a domain-family rule keeps its original
position. -/
theorem reorder_rules_idempotent_and_preserves_others (xs : List Rule) :
    reorder_rules_domain_before_ip (reorder_rules_domain_before_ip xs)
      = reorder_rules_domain_before_ip xs
    ∧ ∀ (n : ℕ) (r : Rule), xs.get? n = some r →
        is_ip_rule r = false → is_domain_rule r = false →
        (reorder_rules_domain_before_ip xs).get? n = some r := by
  by_cases hempty :
      ((xs.filter is_ip_rule).isEmpty || (xs.filter is_domain_rule).isEmpty)
        = true
  · have hid : reorder_rules_domain_before_ip xs = xs := by
      rw [reorder_rules_domain_before_ip, if_pos hempty]
    rw [hid]
    exact ⟨hid, fun n r h _ _ => h⟩
  · have hgo : reorder_rules_domain_before_ip xs
        = reorderGo xs (xs.filter is_domain_rule) (xs.filter is_ip_rule) := by
      rw [reorder_rules_domain_before_ip, if_neg hempty]
    have hdoms : ∀ x ∈ xs.filter is_domain_rule, is_domain_rule x = true :=
      fun x hx => (List.mem_filter.mp hx).2
    have hips : ∀ x ∈ xs.filter is_ip_rule, is_ip_rule x = true :=
      fun x hx => (List.mem_filter.mp hx).2
    have hcount := countP_special xs
    have hfil := reorderGo_filter_special xs _ _ hdoms hips hcount
    have himp_dom : ∀ r : Rule, is_domain_rule r = true →
        (is_ip_rule r || is_domain_rule r) = true := by
      intro r h; simp [h]
    have himp_ip : ∀ r : Rule, is_ip_rule r = true →
        (is_ip_rule r || is_domain_rule r) = true := by
      intro r h; simp [h]
    have hips_not_dom : ∀ x ∈ xs.filter is_ip_rule, ¬is_domain_rule x = true :=
      fun x hx h => ip_domain_disjoint x ⟨hips x hx, h⟩
    have hdoms_not_ip : ∀ x ∈ xs.filter is_domain_rule, ¬is_ip_rule x = true :=
      fun x hx h => ip_domain_disjoint x ⟨h, hdoms x hx⟩
    have hfd : (reorderGo xs (xs.filter is_domain_rule)
          (xs.filter is_ip_rule)).filter is_domain_rule
        = xs.filter is_domain_rule := by
      rw [← filter_imp_filter himp_dom, hfil, List.filter_append,
        List.filter_eq_self.mpr hdoms,
        List.filter_eq_nil_iff.mpr hips_not_dom, List.append_nil]
    have hfi : (reorderGo xs (xs.filter is_domain_rule)
          (xs.filter is_ip_rule)).filter is_ip_rule
        = xs.filter is_ip_rule := by
      rw [← filter_imp_filter himp_ip, hfil, List.filter_append,
        List.filter_eq_nil_iff.mpr hdoms_not_ip,
        List.filter_eq_self.mpr hips, List.nil_append]
    constructor
    · rw [hgo, reorder_rules_domain_before_ip, hfd, hfi, if_neg hempty]
      exact reorderGo_self _ _ _ hfil hdoms hips
    · intro n r h hip hdom
      rw [hgo]
      exact reorderGo_get?_other xs _ _ n r h hip hdom

theorem reorder_rules_idempotent_and_preserves_others_witness :
    (reorder_rules_domain_before_ip
        [⟨"IP-CIDR".data, some "1.1.1.1/32".data, "G".data, ⟨false⟩⟩,
          ⟨"RULE-SET".data, some "xs".data, "G".data, ⟨false⟩⟩,
          ⟨"DOMAIN-SUFFIX".data, some "example.com".data, "G".data, ⟨false⟩⟩]).get? 1
      = some ⟨"RULE-SET".data, some "xs".data, "G".data, ⟨false⟩⟩ :=
  (reorder_rules_idempotent_and_preserves_others _).2 1
    ⟨"RULE-SET".data, some "xs".data, "G".data, ⟨false⟩⟩
    rfl (by decide) (by decide)

theorem surge_src_ip_cidr_duplicates_no_resolve_witness :
    surge_rewrite_rule_line
        (Rule.render
          ⟨"SRC-IP-CIDR".data, some "1.1.1.1/32".data, "G".data, ⟨true⟩⟩)
      = "IP-CIDR,".data ++ "1.1.1.1/32".data ++ ",".data ++ "G".data
          ++ ",no-resolve,no-resolve".data :=
  surge_src_ip_cidr_duplicates_no_resolve
    ⟨"SRC-IP-CIDR".data, some "1.1.1.1/32".data, "G".data, ⟨true⟩⟩
    "1.1.1.1/32".data rfl rfl rfl

end Subcon
